import Mathlib

/-!
# Verification of the Crucible creature-engine core

Shallow embedding of the transactional change engine, the stress
accumulation model, the synthesis state machine and the environmental
interaction code of the repository, together with proofs of the
specification's testable properties.

Numeric `float` values of the source are modelled as exact rationals
(`ℚ`); C++ `std::unordered_set`s of strings are modelled as `Finset
String`; `std::unordered_map`s are modelled as association lists or as
total functions, as noted at each definition.

The change engine (`ChangeProcessor`), stress engine and synthesis
engine are declared in headers under the repository but their member
function bodies are not present in the source tree; those operations
are modelled from the specification text, and each such definition is
marked `Modelled from the spec:` in its doc comment.  The environmental
interaction code (`CreatureEnvironment.cpp`) is present in full and is
embedded directly from the source.
-/

/-- Embedding of `std::clamp(x, 0.0f, 1.0f)` on exact rationals. -/
def clamp01 (x : ℚ) : ℚ := min 1 (max 0 x)

theorem clamp01_nonneg (x : ℚ) : 0 ≤ clamp01 x :=
  le_min (by norm_num) (le_max_left 0 x)

theorem clamp01_le_one (x : ℚ) : clamp01 x ≤ 1 := by
  unfold clamp01
  exact min_le_left _ _

theorem clamp01_mem (x : ℚ) : 0 ≤ clamp01 x ∧ clamp01 x ≤ 1 :=
  ⟨clamp01_nonneg x, clamp01_le_one x⟩

/-! ## Environmental interaction (embedded from `src/src/CreatureEnvironment.cpp`
    and `src/include/crescent/CreatureEnvironment.h`) -/

/-- Embedding of `crescent::EnvironmentalStressor` from `CreatureEnvironment.h`:
an environmental pressure with a source, an intensity, a set of effect
strings and a lethality flag. -/
structure EnvironmentalStressor where
  source : String
  intensity : ℚ
  effects : List String
  isLethal : Bool
deriving DecidableEq, Repr

/-- Embedding of `crescent::EnvironmentalData` from `CreatureEnvironment.h`: a
creature's adaptation record for one environment. -/
structure EnvironmentalData where
  environment : String
  adaptationLevel : ℚ
  exposureTime : ℤ
  activeEffects : List String
  developedAbilities : List String
  currentWeaknesses : List String
  resourceUsage : List (String × ℚ)
  activeStressors : List EnvironmentalStressor
  canSynthesizeWith : Bool
deriving DecidableEq, Repr

/-- The value-initialized `EnvironmentalData` produced by
`activeEnvironments[environment]` when the key is absent (C++ maps
value-initialize: numbers zero, containers empty, bools false). -/
def emptyEnvironmentalData : EnvironmentalData :=
  ⟨"", 0, 0, [], [], [], [], [], false⟩

-- `crescent::EnvironmentConstants` from `CreatureEnvironment.h`.
namespace EnvironmentConstants

def MIN_ADAPTATION_LEVEL : ℚ := 0

def MAX_ADAPTATION_LEVEL : ℚ := 1

def SYNTHESIS_THRESHOLD : ℚ := 4/5

def MIN_EXPOSURE_TIME : ℤ := 100

def LETHAL_STRESS_THRESHOLD : ℚ := 9/10

end EnvironmentConstants

/-- External collaborators called by `CreatureEnvironment.cpp` whose
definitions live outside the embedded translation unit
(`impl::AbilityProcessor`, `impl::StressorProcessor`,
`impl::SynthesisProcessor`, `detail::RandomGenerator`, the resource
helpers), plus the two constants `ABILITY_THRESHOLD` and
`STRESS_THRESHOLD` that the `.cpp` references but that are not defined
in the `EnvironmentConstants` namespace of the header in the source
tree.  Passing them as an explicit record makes the embedded functions
deterministic and lets every theorem quantify over all behaviours of
the collaborators. -/
structure EnvImpl where
  getEnvironmentalAbilities : String → List String
  rollProbability : ℚ → Bool
  selectRandom : List String → String
  getEnvironmentStressors : String → List EnvironmentalStressor
  getEnvironmentalModifier : String → String → ℚ
  checkSynthesisRequirements : String → List String → Bool
  getBaseResourceConsumption : String → ℚ
  getEnvironmentalResourceModifier : String → String → ℚ
  ABILITY_THRESHOLD : ℚ
  STRESS_THRESHOLD : ℚ

/-- An `EnvImpl` whose collaborators all return trivial values; used to
evaluate the embedded functions on concrete inputs. -/
def trivialEnvImpl : EnvImpl :=
  ⟨fun _ => [], fun _ => false, fun _ => "", fun _ => [], fun _ _ => 1,
   fun _ _ => false, fun _ => 0, fun _ _ => 1, 1, 0⟩

/-- The private member state of `crescent::EnvironmentalInteraction`:
`activeEnvironments`, `adaptationLevels` and `currentStressors`.  The
two maps are modelled as association lists. -/
structure EnvironmentalInteraction where
  activeEnvironments : List (String × EnvironmentalData)
  adaptationLevels : List (String × ℚ)
  currentStressors : List EnvironmentalStressor
deriving DecidableEq, Repr

/-- First-match association-list lookup, modelling
`std::unordered_map::find` (keys are unique in a map, so first match
is the match). -/
def lookupA {α : Type} : List (String × α) → String → Option α
  | [], _ => none
  | p :: rest, k => if p.1 = k then some p.2 else lookupA rest k

/-- Association-list write with `std::unordered_map::operator[]`
semantics: overwrite the entry when the key is present, append a fresh
entry otherwise. -/
def setAssoc : List (String × EnvironmentalData) → String →
    EnvironmentalData → List (String × EnvironmentalData)
  | [], k, v => [(k, v)]
  | p :: rest, k, v =>
    if p.1 = k then (k, v) :: rest else p :: setAssoc rest k v

/-- Association-list read with `operator[]` get-or-create semantics:
the value when present, a value-initialized record otherwise. -/
def getAssoc (m : List (String × EnvironmentalData)) (k : String) :
    EnvironmentalData :=
  (lookupA m k).getD emptyEnvironmentalData

/-- Embedding of `EnvironmentalInteraction::checkLethalConditions`: walks the
active stressors of one environment and throws
`EnvironmentalStressException::lethalCondition(environment, intensity)`
at the first stressor whose `intensity >= LETHAL_STRESS_THRESHOLD`.
The thrown exception is modelled as `some (environment, intensity)`;
`none` means the function returns normally. -/
def checkLethalGo (environment : String) :
    List EnvironmentalStressor → Option (String × ℚ)
  | [] => none
  | s :: rest =>
    if EnvironmentConstants.LETHAL_STRESS_THRESHOLD ≤ s.intensity then
      some (environment, s.intensity)
    else checkLethalGo environment rest

/-- Embedding of `EnvironmentalInteraction::checkLethalConditions` over the whole
stressor list. -/
def checkLethalConditions (envData : EnvironmentalData) :
    Option (String × ℚ) :=
  checkLethalGo envData.environment envData.activeStressors

/-- Embedding of `EnvironmentalInteraction::applyStressorModifiers`: scales a
stressor's intensity by the adaptation level of the environment (when
one is recorded) and by the external environmental modifier, then
clamps to `[0, 1]`. -/
def applyStressorModifiers (impl : EnvImpl)
    (adaptationLevels : List (String × ℚ))
    (stressor : EnvironmentalStressor) (environment : String) : ℚ :=
  let m1 :=
    match lookupA adaptationLevels environment with
    | some a => stressor.intensity * (1 - a)
    | none => stressor.intensity
  let m2 := m1 * impl.getEnvironmentalModifier environment stressor.source
  clamp01 m2

/-- Embedding of `EnvironmentalInteraction::generateEnvironmentalStressors`: fetches
the environment's stressors from the external processor and rewrites
each intensity through `applyStressorModifiers`. -/
def generateEnvironmentalStressors (impl : EnvImpl)
    (adaptationLevels : List (String × ℚ)) (environment : String) :
    List EnvironmentalStressor :=
  (impl.getEnvironmentStressors environment).map (fun s =>
    { s with intensity := applyStressorModifiers impl adaptationLevels s environment })

/-- One entry of the `updateStressors` loop: regenerate the
environment's stressors, scale by `(1 - adaptationLevel)`, keep only
those above `STRESS_THRESHOLD`, then run the lethality check.  Returns
the updated tail and, on a throw, the exception payload; entries after
the throwing one are left untouched, as in the source where the
exception aborts the loop mid-iteration. -/
def updateStressorsGo (impl : EnvImpl)
    (adaptationLevels : List (String × ℚ)) :
    List (String × EnvironmentalData) →
    List (String × EnvironmentalData) ⊕
      (List (String × EnvironmentalData) × String × ℚ)
  | [] => Sum.inl []
  | (env, d) :: rest =>
    let base := generateEnvironmentalStressors impl adaptationLevels env
    let kept := base.filterMap (fun s =>
      let s' := { s with intensity := s.intensity * (1 - d.adaptationLevel) }
      if impl.STRESS_THRESHOLD < s'.intensity then some s' else none)
    let d' := { d with activeStressors := kept }
    match checkLethalConditions d' with
    | some (e, i) => Sum.inr ((env, d') :: rest, e, i)
    | none =>
      match updateStressorsGo impl adaptationLevels rest with
      | Sum.inl r => Sum.inl ((env, d') :: r)
      | Sum.inr (r, e, i) => Sum.inr ((env, d') :: r, e, i)

/-- Embedding of `EnvironmentalInteraction::updateStressors` over the whole
interaction state. -/
def updateStressors (impl : EnvImpl) (st : EnvironmentalInteraction) :
    EnvironmentalInteraction ⊕ (EnvironmentalInteraction × String × ℚ) :=
  match updateStressorsGo impl st.adaptationLevels st.activeEnvironments with
  | Sum.inl m => Sum.inl { st with activeEnvironments := m }
  | Sum.inr (m, e, i) => Sum.inr ({ st with activeEnvironments := m }, e, i)

/-- Embedding of `EnvironmentalInteraction::calculateBaseAdaptationPotential`:
existing adaptation level minus half the intensity of every current
stressor sourced from the environment, clamped to `[0, 1]`. -/
def calculateBaseAdaptationPotential (st : EnvironmentalInteraction)
    (environment : String) : ℚ :=
  let p1 := (lookupA st.adaptationLevels environment).getD 0
  let p2 := st.currentStressors.foldl (fun acc s =>
    if s.source = environment then acc - s.intensity * (1/2) else acc) p1
  clamp01 p2

/-- Embedding of `EnvironmentalInteraction::processAbilityDevelopment`: filter the
environment's potential abilities down to undeveloped ones and, when
the probability roll succeeds, insert a randomly selected one. -/
def processAbilityDevelopment (impl : EnvImpl) (d : EnvironmentalData) :
    EnvironmentalData :=
  let potentialAbilities :=
    (impl.getEnvironmentalAbilities d.environment).filter
      (fun a => ¬ d.developedAbilities.contains a)
  if potentialAbilities ≠ [] ∧ impl.rollProbability d.adaptationLevel then
    let newAbility := impl.selectRandom potentialAbilities
    if d.developedAbilities.contains newAbility then d
    else { d with developedAbilities := d.developedAbilities ++ [newAbility] }
  else d

/-- Embedding of `EnvironmentalInteraction::updateResourceUsage`: adds the modified
base consumption to every tracked resource. -/
def updateResourceUsage (impl : EnvImpl) (d : EnvironmentalData) :
    EnvironmentalData :=
  { d with resourceUsage := d.resourceUsage.map (fun p =>
      (p.1, p.2 + impl.getBaseResourceConsumption p.1 *
        impl.getEnvironmentalResourceModifier d.environment p.1)) }

/-- Embedding of `EnvironmentalInteraction::calculateSynthesisPotential`: for every
active environment, `canSynthesizeWith` becomes true exactly when the
adaptation level reaches `SYNTHESIS_THRESHOLD` and the external
synthesis processor accepts the developed abilities. -/
def calculateSynthesisPotential (impl : EnvImpl)
    (st : EnvironmentalInteraction) : EnvironmentalInteraction :=
  { st with activeEnvironments := st.activeEnvironments.map (fun p =>
      (p.1, { p.2 with canSynthesizeWith :=
        p.2.adaptationLevel ≥ EnvironmentConstants.SYNTHESIS_THRESHOLD ∧
        impl.checkSynthesisRequirements p.1 p.2.developedAbilities })) }

/-- Embedding of `EnvironmentalInteraction::processAdaptationCycle` on the map
entry for `envKey`: raise the adaptation level by the local constant
`ADAPTATION_RATE = 0.1` capped at `MAX_ADAPTATION_LEVEL`, run ability
development once the level reaches `ABILITY_THRESHOLD`, update
resource usage, then recompute synthesis potential for every
environment. -/
def processAdaptationCycle (impl : EnvImpl)
    (st : EnvironmentalInteraction) (envKey : String) :
    EnvironmentalInteraction :=
  let d := getAssoc st.activeEnvironments envKey
  let newLevel := min (d.adaptationLevel + 1/10)
    EnvironmentConstants.MAX_ADAPTATION_LEVEL
  let d1 := { d with adaptationLevel := newLevel }
  let d2 := if d1.adaptationLevel ≥ impl.ABILITY_THRESHOLD then
    processAbilityDevelopment impl d1 else d1
  let d3 := updateResourceUsage impl d2
  let st1 := { st with activeEnvironments := setAssoc st.activeEnvironments envKey d3 }
  calculateSynthesisPotential impl st1

theorem lookupA_setAssoc (m : List (String × EnvironmentalData))
    (k : String) (v : EnvironmentalData) :
    lookupA (setAssoc m k v) k = some v := by
  induction m with
  | nil => simp [setAssoc, lookupA]
  | cons p rest ih =>
    by_cases hp : p.1 = k
    · simp [setAssoc, lookupA, hp]
    · simpa [setAssoc, lookupA, hp] using ih

theorem getAssoc_setAssoc (m : List (String × EnvironmentalData))
    (k : String) (v : EnvironmentalData) :
    getAssoc (setAssoc m k v) k = v := by
  simp [getAssoc, lookupA_setAssoc]

theorem updateResourceUsage_exposureTime (impl : EnvImpl)
    (d : EnvironmentalData) :
    (updateResourceUsage impl d).exposureTime = d.exposureTime := rfl

theorem processAbilityDevelopment_exposureTime (impl : EnvImpl)
    (d : EnvironmentalData) :
    (processAbilityDevelopment impl d).exposureTime = d.exposureTime := by
  simp only [processAbilityDevelopment]
  split
  · split <;> rfl
  · rfl

theorem getAssoc_calculateSynthesisPotential_exposureTime (impl : EnvImpl)
    (st : EnvironmentalInteraction) (k : String) :
    (getAssoc (calculateSynthesisPotential impl st).activeEnvironments
      k).exposureTime =
    (getAssoc st.activeEnvironments k).exposureTime := by
  unfold calculateSynthesisPotential getAssoc
  simp only
  induction st.activeEnvironments with
  | nil => rfl
  | cons p rest ih =>
    by_cases hp : p.1 = k
    · simp [lookupA, hp]
    · simpa [lookupA, hp] using ih

theorem processAdaptationCycle_exposureTime (impl : EnvImpl)
    (st : EnvironmentalInteraction) (envKey : String) :
    (getAssoc (processAdaptationCycle impl st envKey).activeEnvironments
      envKey).exposureTime =
    (getAssoc st.activeEnvironments envKey).exposureTime := by
  unfold processAdaptationCycle
  rw [getAssoc_calculateSynthesisPotential_exposureTime]
  simp only [getAssoc_setAssoc, updateResourceUsage_exposureTime]
  split
  · rw [processAbilityDevelopment_exposureTime]
  · rfl

/-- The `while` loop of
`EnvironmentalInteraction::processTimeInEnvironment`: repeat
`processAdaptationCycle` and deduct `MIN_EXPOSURE_TIME` from the
environment's exposure time while the exposure time covers at least
one cycle and the adaptation level is below the computed potential. -/
def adaptationLoop (impl : EnvImpl) (pot : ℚ)
    (st : EnvironmentalInteraction) (envKey : String) :
    EnvironmentalInteraction :=
  if h : EnvironmentConstants.MIN_EXPOSURE_TIME ≤
      (getAssoc st.activeEnvironments envKey).exposureTime ∧
      (getAssoc st.activeEnvironments envKey).adaptationLevel < pot then
    let st1 := processAdaptationCycle impl st envKey
    let d1 := getAssoc st1.activeEnvironments envKey
    let newExposure := d1.exposureTime - EnvironmentConstants.MIN_EXPOSURE_TIME
    let st2 := { st1 with activeEnvironments := setAssoc st1.activeEnvironments envKey { d1 with exposureTime := newExposure } }
    adaptationLoop impl pot st2 envKey
  else st
termination_by (getAssoc st.activeEnvironments envKey).exposureTime.toNat
decreasing_by
  simp only [getAssoc_setAssoc, processAdaptationCycle_exposureTime]
  simp only [EnvironmentConstants.MIN_EXPOSURE_TIME] at *
  omega

/-- The observable result of one `processTimeInEnvironment` call:
either the optional returned `EnvironmentalData`, or the
`EnvironmentalStressException::lethalCondition` thrown from
`checkLethalConditions`. -/
inductive EnvOutcome where
  | ok : Option EnvironmentalData → EnvOutcome
  | lethalException : String → ℚ → EnvOutcome
deriving DecidableEq, Repr

/-- Embedding of `EnvironmentalInteraction::processTimeInEnvironment`: rejects
exposures shorter than `MIN_EXPOSURE_TIME` before touching any state,
otherwise accumulates exposure time on the environment's entry, runs
adaptation cycles, refreshes stressors, and returns the entry's final
value. -/
def processTimeInEnvironment (impl : EnvImpl)
    (st : EnvironmentalInteraction) (environment : String) (time : ℤ) :
    EnvironmentalInteraction × EnvOutcome :=
  if time < EnvironmentConstants.MIN_EXPOSURE_TIME then
    (st, EnvOutcome.ok none)
  else
    let d0 := getAssoc st.activeEnvironments environment
    let d1 := { d0 with environment := environment, exposureTime := d0.exposureTime + time }
    let st1 := { st with activeEnvironments := setAssoc st.activeEnvironments environment d1 }
    let pot := calculateBaseAdaptationPotential st1 environment
    let st2 := adaptationLoop impl pot st1 environment
    match updateStressors impl st2 with
    | Sum.inl st3 =>
      (st3, EnvOutcome.ok (some (getAssoc st3.activeEnvironments environment)))
    | Sum.inr (st3, e, i) => (st3, EnvOutcome.lethalException e i)

/-! ## Claim C10 — minimum-exposure guard -/

/-- C10: for every environment string and every exposure time below
`EnvironmentConstants::MIN_EXPOSURE_TIME` (100),
`processTimeInEnvironment` returns `std::nullopt` and leaves the
interaction state completely unchanged — no `activeEnvironments`
entry is created and no exposure time, adaptation level or stressor is
updated — for every behaviour of the external collaborators. -/
theorem processTimeInEnvironment_min_exposure_guard (impl : EnvImpl)
    (st : EnvironmentalInteraction) (environment : String) (time : ℤ)
    (h : time < EnvironmentConstants.MIN_EXPOSURE_TIME) :
    processTimeInEnvironment impl st environment time =
      (st, EnvOutcome.ok none) := by
  unfold processTimeInEnvironment
  rw [if_pos h]

/-- Witness for C10 at the concrete input `time = 5` on an empty
interaction state. -/
theorem processTimeInEnvironment_min_exposure_guard_witness :
    (5 : ℤ) < EnvironmentConstants.MIN_EXPOSURE_TIME ∧
    processTimeInEnvironment trivialEnvImpl ⟨[], [], []⟩ "desert" 5 =
      (⟨[], [], []⟩, EnvOutcome.ok none) :=
  ⟨by decide,
   processTimeInEnvironment_min_exposure_guard trivialEnvImpl ⟨[], [], []⟩
     "desert" 5 (by decide)⟩

/-! ## Claim C8 — lethality check -/

/-- The lethality query exactly as the specification's sentence states
it (for comparison with the source's `checkLethalConditions`): true
exactly when the sum of the intensities of the active stressors marked
`isLethal` exceeds the lethal threshold constant. -/
def specLethalQuery (envData : EnvironmentalData) : Bool :=
  decide (EnvironmentConstants.LETHAL_STRESS_THRESHOLD <
    ((envData.activeStressors.filter (fun s => s.isLethal)).map
      (fun s => s.intensity)).sum)

/-- An environment record with two lethal-flagged stressors of
intensity `1/2` each: their sum `1` exceeds the threshold `9/10`, yet
no single stressor reaches it. -/
def lethalPairData : EnvironmentalData :=
  { emptyEnvironmentalData with
    environment := "volcano",
    activeStressors := [⟨"heat", 1/2, [], true⟩, ⟨"ash", 1/2, [], true⟩] }

/-- C8 counterexample: the code's lethality check does not agree with
the claimed sum-of-lethal-intensities query.  On `lethalPairData` the
claimed query is true (sum `1 > 9/10`) but `checkLethalConditions`
signals nothing, because the source tests each stressor's intensity
individually against `LETHAL_STRESS_THRESHOLD` and ignores the
`isLethal` flag entirely. -/
theorem checkLethalConditions_ne_specLethalQuery :
    (checkLethalConditions lethalPairData).isSome = false ∧
    specLethalQuery lethalPairData = true := by
  constructor
  · norm_num [checkLethalConditions, lethalPairData, emptyEnvironmentalData,
      checkLethalGo, EnvironmentConstants.LETHAL_STRESS_THRESHOLD]
  · norm_num [specLethalQuery, lethalPairData, emptyEnvironmentalData,
      EnvironmentConstants.LETHAL_STRESS_THRESHOLD, List.filter]

/-- C8 amended: `checkLethalConditions` throws a lethal-condition
exception exactly when some currently active stressor — regardless of
its `isLethal` flag — has intensity at least
`LETHAL_STRESS_THRESHOLD` (0.9); the staged stress thresholds play no
part in the decision. -/
theorem checkLethalConditions_iff (envData : EnvironmentalData) :
    (checkLethalConditions envData).isSome = true ↔
    ∃ s ∈ envData.activeStressors,
      EnvironmentConstants.LETHAL_STRESS_THRESHOLD ≤ s.intensity := by
  unfold checkLethalConditions
  induction envData.activeStressors with
  | nil => simp [checkLethalGo]
  | cons s rest ih =>
    by_cases hs : EnvironmentConstants.LETHAL_STRESS_THRESHOLD ≤ s.intensity
    · simp [checkLethalGo, hs]
    · simp only [checkLethalGo, if_neg hs, List.mem_cons]
      rw [ih]
      constructor
      · rintro ⟨t, ht, hti⟩
        exact ⟨t, Or.inr ht, hti⟩
      · rintro ⟨t, ht | ht, hti⟩
        · exact absurd (ht ▸ hti) hs
        · exact ⟨t, ht, hti⟩

/-! ## Change engine (header `creature_engine/core/changes/ChangeProcessor.h`;
    member bodies are not in the source tree, so the operations are
    modelled from specification sections 3, 4.1 and 7) -/

/-- Embedding of `crescent::ChangeSource` from
`creature_engine/core/base/CreatureEnums.h`. -/
inductive ChangeSource where
  | Environment
  | Evolution
  | Synthesis
  | Stress
  | Manual
  | System
deriving DecidableEq, Repr

/-- Embedding of `crescent::ChangePriority` from
`creature_engine/core/base/CreatureEnums.h` (`Low = 0`, `Normal = 50`,
`High = 75`, `Critical = 100`). -/
inductive ChangePriority where
  | Low
  | Normal
  | High
  | Critical
deriving DecidableEq, Repr

/-- The numeric value of each `ChangePriority` enumerator in the
source. -/
def ChangePriority.toNat : ChangePriority → ℕ
  | .Low => 0
  | .Normal => 50
  | .High => 75
  | .Critical => 100

/-- Modelled from the spec: the `ChangeResult` outcome set of section
4.1 (`Applied`, `Rejected`, `Partial`, `Conflicting`, `InvalidState`,
`Pending`); the third enumerator is named `PartiallyApplied` here. -/
inductive ChangeResult where
  | Applied
  | Rejected
  | PartiallyApplied
  | Conflicting
  | InvalidState
  | Pending
deriving DecidableEq, Repr

/-- Modelled from the spec: one optional sub-delta of a Change.
Section 4.1's undo derivation fixes the effect vocabulary: additions
and removals of named items, numeric modifiers keyed by name, and
non-invertible one-shot effects (`oneShot` — a delta containing one
has no computable inverse).  The concrete field lists of
`PhysicalChange`/`AbilityChange`/`TraitChange`/`BehaviorChange` in
`ChangeTypes.h` are all instances of this shape (`addFeatures` /
`removeFeatures` / `featureModifiers`, `addAbilities` /
`removeAbilities` / `powerModifiers`, ...). -/
structure Delta where
  adds : Finset String
  removes : Finset String
  modifiers : List (String × ℚ)
  oneShot : Bool
deriving DecidableEq

/-- Embedding of `crescent::ChangeMetadata` from `ChangeTypes.h`. -/
structure ChangeMetadata where
  id : String
  source : ChangeSource
  priority : ChangePriority
  description : String
  tags : List String
deriving DecidableEq, Repr

/-- Embedding of `crescent::FormChange` from `FormChange.h`: metadata
plus four independently optional sub-deltas. -/
structure FormChange where
  metadata : ChangeMetadata
  physical : Option Delta
  abilities : Option Delta
  traits : Option Delta
  behavior : Option Delta
deriving DecidableEq

/-- Embedding of `FormChange::isEmpty` (inline in `FormChange.h`): a
change with all four deltas absent is empty. -/
def FormChange.isEmpty (c : FormChange) : Bool :=
  c.physical.isNone && c.abilities.isNone && c.traits.isNone &&
    c.behavior.isNone

/-- Modelled from the spec: one sub-state of the creature aggregate —
a set of named items plus a numeric value per name.  Values are
modelled extensionally (a total function that is `0` off the finitely
many touched names), matching state equality up to container
representation. -/
structure SubState where
  items : Finset String
  values : String → ℚ

theorem subStateExt {s t : SubState} (hi : s.items = t.items)
    (hv : ∀ k, s.values k = t.values k) : s = t := by
  cases s
  cases t
  simp only [SubState.mk.injEq]
  exact ⟨hi, funext hv⟩

/-- Modelled from the spec: the creature aggregate of four sub-states
(physical / ability / trait / behavior), mutated only through the
change engine. -/
structure CreatureState where
  physical : SubState
  abilities : SubState
  traits : SubState
  behavior : SubState

theorem creatureStateExt {s t : CreatureState}
    (h1 : s.physical = t.physical) (h2 : s.abilities = t.abilities)
    (h3 : s.traits = t.traits) (h4 : s.behavior = t.behavior) : s = t := by
  cases s
  cases t
  simp only [CreatureState.mk.injEq]
  exact ⟨h1, h2, h3, h4⟩

/-- Net numeric effect of a modifier list on one key. -/
def modSum : List (String × ℚ) → String → ℚ
  | [], _ => 0
  | p :: rest, k => (if p.1 = k then p.2 else 0) + modSum rest k

/-- Modelled from the spec: applying one delta to one sub-state —
removals, then additions, then numeric modifiers. -/
def Delta.applyTo (d : Delta) (s : SubState) : SubState :=
  { items := (s.items \ d.removes) ∪ d.adds,
    values := fun k => s.values k + modSum d.modifiers k }

/-- Application of an optional delta (absent deltas change nothing). -/
def applyOptDelta (od : Option Delta) (s : SubState) : SubState :=
  match od with
  | none => s
  | some d => d.applyTo s

/-- Modelled from the spec: `FormChange::apply` — apply each present
sub-delta to the corresponding sub-state. -/
def FormChange.applyTo (c : FormChange) (s : CreatureState) : CreatureState :=
  { physical := applyOptDelta c.physical s.physical,
    abilities := applyOptDelta c.abilities s.abilities,
    traits := applyOptDelta c.traits s.traits,
    behavior := applyOptDelta c.behavior s.behavior }

/-- Modelled from the spec: the structurally derived inverse of one
delta against the pre-state (section 4.1): additions become removals
(restricted to items actually new), removals become re-additions of
the snapshotted items actually present, numeric modifiers become their
negations. -/
def Delta.invertAgainst (d : Delta) (s : SubState) : Delta :=
  { adds := d.removes ∩ s.items,
    removes := d.adds \ (s.items \ d.removes),
    modifiers := d.modifiers.map (fun p => (p.1, -p.2)),
    oneShot := false }

/-- Inversion of an optional delta. -/
def invertOptDelta (od : Option Delta) (s : SubState) : Option Delta :=
  od.map (fun d => d.invertAgainst s)

/-- True when an optional delta carries a non-invertible one-shot
effect. -/
def optOneShot (od : Option Delta) : Bool :=
  (od.map Delta.oneShot).getD false

/-- Modelled from the spec: `FormChange::generateUndo` — a change
containing only invertible effects yields the field-by-field
structural inverse (computed against the pre-application state, whose
values the engine snapshots at apply time); a change with any
non-invertible one-shot effect has no inverse. -/
def FormChange.generateUndo (c : FormChange) (s : CreatureState) :
    Option FormChange :=
  if optOneShot c.physical || optOneShot c.abilities || optOneShot c.traits ||
      optOneShot c.behavior then
    none
  else
    some
      { metadata := c.metadata,
        physical := invertOptDelta c.physical s.physical,
        abilities := invertOptDelta c.abilities s.abilities,
        traits := invertOptDelta c.traits s.traits,
        behavior := invertOptDelta c.behavior s.behavior }

theorem modSum_neg (mods : List (String × ℚ)) (k : String) :
    modSum (mods.map (fun p => (p.1, -p.2))) k = -modSum mods k := by
  induction mods with
  | nil => simp [modSum]
  | cons p rest ih =>
    simp only [List.map_cons, modSum, ih]
    by_cases hp : p.1 = k
    · simp only [hp, if_pos]
      ring
    · simp [hp]

theorem Delta.applyTo_invertAgainst (d : Delta) (s : SubState) :
    (d.invertAgainst s).applyTo (d.applyTo s) = s := by
  apply subStateExt
  · simp only [Delta.applyTo, Delta.invertAgainst]
    ext x
    simp only [Finset.mem_union, Finset.mem_sdiff, Finset.mem_inter]
    tauto
  · intro k
    simp only [Delta.applyTo, Delta.invertAgainst, modSum_neg]
    ring

theorem applyOptDelta_invertOptDelta (od : Option Delta) (s : SubState) :
    applyOptDelta (invertOptDelta od s) (applyOptDelta od s) = s := by
  cases od with
  | none => rfl
  | some d => exact Delta.applyTo_invertAgainst d s

theorem FormChange.applyTo_generateUndo (c : FormChange) (s : CreatureState)
    (u : FormChange) (h : c.generateUndo s = some u) :
    u.applyTo (c.applyTo s) = s := by
  unfold FormChange.generateUndo at h
  split at h
  · exact absurd h (by simp)
  · rw [Option.some.injEq] at h
    subst h
    apply creatureStateExt <;>
      simp only [FormChange.applyTo] <;>
      apply applyOptDelta_invertOptDelta

/-- Modelled from the spec: a `ChangeRecord` — the applied change, the
inverse computed (with snapshots) at apply time, and the
reverted/applied flag.  The applied timestamp carries no behaviour and
is omitted. -/
structure ChangeRecord where
  change : FormChange
  inverse : Option FormChange
  reverted : Bool

/-- Embedding of the private state of `crescent::ChangeProcessor`
(header `ChangeProcessor.h`): bounded history (newest first), batch
flag and pending-change buffer.  The mutex and the configured minimum
validation level carry no sequential behaviour here and are omitted. -/
structure ChangeProcessor where
  history : List ChangeRecord
  batchMode : Bool
  pendingChanges : List FormChange

/-- Embedding of `ChangeProcessor::MAX_HISTORY_SIZE` (a `static
constexpr size_t` in the header). -/
def MAX_HISTORY_SIZE : ℕ := 100

/-- The freshly constructed `ChangeProcessor()`: empty history, no
open batch, no pending changes. -/
def ChangeProcessor.init : ChangeProcessor := ⟨[], false, []⟩

/-- Modelled from the spec: validation of one optional delta against
the current sub-state — a change that would drive a tracked value
below the hard floor `0` fails validation (section 8's
`InvalidState` scenario). -/
def validOptDelta (od : Option Delta) (s : SubState) : Bool :=
  match od with
  | none => true
  | some d => d.modifiers.all (fun p => decide (0 ≤ s.values p.1 + modSum d.modifiers p.1))

/-- Modelled from the spec: `ChangeProcessor::validateChange` — every
present sub-delta must pass validation against its sub-state. -/
def validateChange (state : CreatureState) (change : FormChange) : Bool :=
  validOptDelta change.physical state.physical &&
  validOptDelta change.abilities state.abilities &&
  validOptDelta change.traits state.traits &&
  validOptDelta change.behavior state.behavior

/-- Modelled from the spec: conflict between two optional sub-deltas —
both target the same name with incompatible values (one adds what the
other removes). -/
def deltaConflict (a b : Option Delta) : Bool :=
  match a, b with
  | some da, some db =>
    decide ((da.adds ∩ db.removes).Nonempty ∨ (da.removes ∩ db.adds).Nonempty)
  | _, _ => false

/-- Modelled from the spec: `FormChange::hasConflictsWith` — some pair
of corresponding sub-deltas conflicts. -/
def FormChange.hasConflictsWith (c other : FormChange) : Bool :=
  deltaConflict c.physical other.physical ||
  deltaConflict c.abilities other.abilities ||
  deltaConflict c.traits other.traits ||
  deltaConflict c.behavior other.behavior

/-- Modelled from the spec: `ChangeProcessor::hasConflictingChanges` —
a pure scan of the unretired history for conflicts, without resolving
them. -/
def ChangeProcessor.hasConflictingChanges (proc : ChangeProcessor)
    (change : FormChange) : Bool :=
  proc.history.any (fun r => !r.reverted && r.change.hasConflictsWith change)

/-- Modelled from the spec: the incoming change loses conflict
resolution exactly when some unretired history record conflicts with
it and carries strictly higher priority (equal priority is resolved in
favour of the later arrival — the incoming change). -/
def ChangeProcessor.conflictDefeated (proc : ChangeProcessor)
    (change : FormChange) : Bool :=
  proc.history.any (fun r => !r.reverted &&
    r.change.hasConflictsWith change &&
    decide (change.metadata.priority.toNat < r.change.metadata.priority.toNat))

/-- Modelled from the spec: `ChangeProcessor::processChange` — in
order: reject empty changes; reject validation failures with no
mutation; buffer and return `Pending` while a batch is open; give the
`Conflicting` result to a change defeated by a strictly
higher-priority unretired record; otherwise apply, record (with the
inverse snapshotted now) and prune history to `MAX_HISTORY_SIZE`
newest-first (FIFO eviction of the oldest records). -/
def ChangeProcessor.processChange (proc : ChangeProcessor)
    (state : CreatureState) (change : FormChange) :
    ChangeResult × CreatureState × ChangeProcessor :=
  if change.isEmpty then (ChangeResult.Rejected, state, proc)
  else if ¬ validateChange state change then (ChangeResult.Rejected, state, proc)
  else if proc.batchMode then
    (ChangeResult.Pending, state,
     { proc with pendingChanges := proc.pendingChanges ++ [change] })
  else if proc.conflictDefeated change then
    (ChangeResult.Conflicting, state, proc)
  else
    (ChangeResult.Applied, change.applyTo state,
     { proc with history :=
        (ChangeRecord.mk change (change.generateUndo state) false ::
          proc.history).take MAX_HISTORY_SIZE })

/-- Modelled from the spec: stable insertion of a change into a
priority-descending list — the change goes before the first strictly
lower-priority entry and after earlier equal-priority entries. -/
def insertByPriority (c : FormChange) : List FormChange → List FormChange
  | [] => [c]
  | d :: ds =>
    if d.metadata.priority.toNat ≤ c.metadata.priority.toNat then c :: d :: ds
    else d :: insertByPriority c ds

/-- Modelled from the spec: the stable priority-descending sort run by
`processChanges` before conflict resolution (ties preserve original
submission order). -/
def sortByPriority : List FormChange → List FormChange
  | [] => []
  | c :: cs => insertByPriority c (sortByPriority cs)

/-- Sequential processing of an already-sorted list of changes,
pairing each change with its result. -/
def ChangeProcessor.processSorted : ChangeProcessor → CreatureState →
    List FormChange →
    List (FormChange × ChangeResult) × CreatureState × ChangeProcessor
  | proc, state, [] => ([], state, proc)
  | proc, state, c :: cs =>
    let out := proc.processChange state c
    let rest := ChangeProcessor.processSorted out.2.2 out.2.1 cs
    ((c, out.1) :: rest.1, rest.2.1, rest.2.2)

/-- Modelled from the spec: `ChangeProcessor::processChanges` — sort
the incoming changes by priority descending (stable), then apply
`processChange` to each in turn. -/
def ChangeProcessor.processChanges (proc : ChangeProcessor)
    (state : CreatureState) (changes : List FormChange) :
    List (FormChange × ChangeResult) × CreatureState × ChangeProcessor :=
  ChangeProcessor.processSorted proc state (sortByPriority changes)

/-- Modelled from the spec: `ChangeProcessor::startBatch` — opens
collection; idempotent when a batch is already open (no nested
batches). -/
def ChangeProcessor.startBatch (proc : ChangeProcessor) : ChangeProcessor :=
  { proc with batchMode := true }

/-- Modelled from the spec: `ChangeProcessor::rollbackBatch` —
discards pending changes unconditionally and returns to non-batch
mode. -/
def ChangeProcessor.rollbackBatch (proc : ChangeProcessor) : ChangeProcessor :=
  { proc with batchMode := false, pendingChanges := [] }

/-- Modelled from the spec: one step of batch conflict resolution over
a priority-sorted buffer.  A change defeated by an already-accepted
strictly higher-priority conflicting change is dropped; an accepted
change wins against (and evicts) accepted conflicting changes of lower
or equal priority (later arrival wins ties). -/
def resolveStep (accepted : List FormChange) (c : FormChange) :
    List FormChange :=
  if accepted.any (fun w => w.hasConflictsWith c &&
      decide (c.metadata.priority.toNat < w.metadata.priority.toNat)) then
    accepted
  else
    (accepted.filter (fun w => !(w.hasConflictsWith c &&
      decide (w.metadata.priority.toNat ≤ c.metadata.priority.toNat)))) ++ [c]

/-- Modelled from the spec: `ChangeProcessor::resolveConflicts` — the
surviving (non-conflicting) changes of a buffered sequence, in
application order. -/
def resolveConflicts (changes : List FormChange) : List FormChange :=
  changes.foldl resolveStep []

/-- Sequential application of a list of changes, recording each (with
its inverse snapshotted at its application point); records are
returned newest first. -/
def applyRecording : CreatureState → List FormChange →
    CreatureState × List ChangeRecord
  | state, [] => (state, [])
  | state, c :: cs =>
    let out := applyRecording (c.applyTo state) cs
    (out.1, out.2 ++ [ChangeRecord.mk c (c.generateUndo state) false])

/-- Modelled from the spec: floor check of one optional delta's target
keys against an already-projected sub-state — the change is
`InvalidState` under the projected state when some value it modifies
sits below the hard floor `0` there. -/
def modKeysOk (od : Option Delta) (s : SubState) : Bool :=
  match od with
  | none => true
  | some d => d.modifiers.all (fun p => decide (0 ≤ s.values p.1))

/-- Modelled from the spec: a batched change validated against the
full projected post-batch state. -/
def projectedOk (state : CreatureState) (c : FormChange) : Bool :=
  modKeysOk c.physical state.physical &&
  modKeysOk c.abilities state.abilities &&
  modKeysOk c.traits state.traits &&
  modKeysOk c.behavior state.behavior

/-- Modelled from the spec: `ChangeProcessor::commitBatch` — runs the
full pipeline over the buffered sequence as one transaction: sort by
priority, resolve conflicts, project the post-batch state, and
re-validate every surviving change against the full projected state
before any write occurs.  If all pass, every surviving change is
applied and recorded and the call returns `true`; otherwise the whole
batch is discarded, the state is left untouched and the call returns
`false`.  Either way the batch closes and the buffer empties.  With no
open batch the call fails without effect. -/
def ChangeProcessor.commitBatch (proc : ChangeProcessor)
    (state : CreatureState) : Bool × CreatureState × ChangeProcessor :=
  if ¬ proc.batchMode then (false, state, proc)
  else
    let survivors := resolveConflicts (sortByPriority proc.pendingChanges)
    let projected := survivors.foldl (fun st c => c.applyTo st) state
    if survivors.all (fun c => projectedOk projected c) then
      let out := applyRecording state survivors
      let newHistory := (out.2 ++ proc.history).take MAX_HISTORY_SIZE
      (true, out.1,
       { history := newHistory, batchMode := false, pendingChanges := [] })
    else
      (false, state, { proc with batchMode := false, pendingChanges := [] })

/-- The most recent (first, in newest-first order) unretired record of
a history. -/
def mostRecentActive : List ChangeRecord → Option ChangeRecord
  | [] => none
  | r :: rest => if r.reverted then mostRecentActive rest else some r

/-- Modelled from the spec: the recursive core of
`ChangeProcessor::undo` — skip reverted records, fail on an empty
history or a most-recent unretired record without a computable
inverse, otherwise apply the stored inverse and mark the record
reverted. -/
def undoGo : List ChangeRecord → CreatureState →
    Bool × CreatureState × List ChangeRecord
  | [], state => (false, state, [])
  | r :: rest, state =>
    if r.reverted then
      let out := undoGo rest state
      (out.1, out.2.1, r :: out.2.2)
    else
      match r.inverse with
      | none => (false, state, r :: rest)
      | some u =>
        (true, u.applyTo state,
         { r with reverted := true } :: rest)

/-- Modelled from the spec: `ChangeProcessor::undo` — pops the most
recent non-reverted record, applies its inverse and marks it reverted;
returns `false` with no side effects when the history is empty (or
fully reverted) or the record has no computable inverse. -/
def ChangeProcessor.undo (proc : ChangeProcessor) (state : CreatureState) :
    Bool × CreatureState × ChangeProcessor :=
  let out := undoGo proc.history state
  (out.1, out.2.1, { proc with history := out.2.2 })

/-- Embedding of `ChangeProcessor::canUndo`: some unretired record
remains in history. -/
def ChangeProcessor.canUndo (proc : ChangeProcessor) : Bool :=
  proc.history.any (fun r => !r.reverted)

theorem applyRecording_state (state : CreatureState) (cs : List FormChange) :
    (applyRecording state cs).1 = cs.foldl (fun st c => c.applyTo st) state := by
  induction cs generalizing state with
  | nil => rfl
  | cons c rest ih => simp [applyRecording, List.foldl_cons, ih]

/-! ## Claim C1 — batch atomicity -/

/-- C1: batch atomicity.  For every creature state and every buffered
batch, if `commitBatch` returns `true` the post-state is exactly the
fold of every surviving (priority-sorted, conflict-resolved, valid)
change of the batch over the pre-state; if it returns `false` the
post-state is exactly the pre-state — no sub-state field is modified —
and the processor's history is exactly the pre-commit history — no
history entry is added, removed or modified. -/
theorem commitBatch_atomicity (proc : ChangeProcessor) (state : CreatureState) :
    ((proc.commitBatch state).1 = true →
      (proc.commitBatch state).2.1 =
        (resolveConflicts (sortByPriority proc.pendingChanges)).foldl
          (fun st c => c.applyTo st) state) ∧
    ((proc.commitBatch state).1 = false →
      (proc.commitBatch state).2.1 = state ∧
      (proc.commitBatch state).2.2.history = proc.history) := by
  by_cases hb : proc.batchMode = true
  · by_cases hv : (resolveConflicts (sortByPriority proc.pendingChanges)).all
        (fun c => projectedOk
          ((resolveConflicts (sortByPriority proc.pendingChanges)).foldl
            (fun st c => c.applyTo st) state) c) = true
    · constructor
      · intro _
        simp [ChangeProcessor.commitBatch, hb, hv, applyRecording_state]
      · intro h
        simp [ChangeProcessor.commitBatch, hb, hv] at h
    · constructor
      · intro h
        simp [ChangeProcessor.commitBatch, hb, hv] at h
      · intro _
        simp [ChangeProcessor.commitBatch, hb, hv]
  · constructor
    · intro h
      simp [ChangeProcessor.commitBatch, hb] at h
    · intro _
      simp [ChangeProcessor.commitBatch, hb]

/-- An all-zero sub-state. -/
def zeroSub : SubState := ⟨∅, fun _ => 0⟩

/-- A creature state whose trait sub-state carries the value `1/2` for
the key `"claw-strength"` and `0` elsewhere. -/
def batchState0 : CreatureState :=
  ⟨zeroSub, zeroSub, ⟨∅, fun k => if k = "claw-strength" then 1/2 else 0⟩,
   zeroSub⟩

/-- Metadata of a manual change with the given priority. -/
def mkMeta (priority : ChangePriority) : ChangeMetadata :=
  ⟨"", ChangeSource.Manual, priority, "", []⟩

/-- A trait change adding `1/4` to `"claw-strength"`. -/
def boostChange : FormChange :=
  ⟨mkMeta ChangePriority.Normal, none, none,
   some ⟨∅, ∅, [("claw-strength", 1/4)], false⟩, none⟩

/-- A trait change subtracting `2` from `"claw-strength"` — under
`batchState0` this drives the value below the hard floor. -/
def drainChange : FormChange :=
  ⟨mkMeta ChangePriority.Normal, none, none,
   some ⟨∅, ∅, [("claw-strength", -2)], false⟩, none⟩

/-- A processor with an open batch buffering the boost and the drain
(the drain invalidates the projected post-batch state). -/
def batchProc0 : ChangeProcessor := ⟨[], true, [boostChange, drainChange]⟩

/-- Witness for C1: the specification's own scenario — a batch of two
changes whose second drives a trait value below the hard floor;
`commitBatch` returns `false`, the state is untouched and the history
is untouched. -/
theorem commitBatch_atomicity_witness :
    (batchProc0.commitBatch batchState0).1 = false ∧
    (batchProc0.commitBatch batchState0).2.1 = batchState0 ∧
    (batchProc0.commitBatch batchState0).2.2.history = batchProc0.history := by
  have hfalse : (batchProc0.commitBatch batchState0).1 = false := by
    norm_num [ChangeProcessor.commitBatch, batchProc0, batchState0,
      sortByPriority, insertByPriority, resolveConflicts, resolveStep,
      ChangePriority.toNat, FormChange.hasConflictsWith, deltaConflict,
      projectedOk, modKeysOk, FormChange.applyTo, applyOptDelta,
      Delta.applyTo, modSum, boostChange, drainChange, mkMeta, zeroSub]
  exact ⟨hfalse, (commitBatch_atomicity batchProc0 batchState0).2 hfalse⟩

theorem undoGo_fail (hist : List ChangeRecord) (state : CreatureState)
    (h : (mostRecentActive hist).bind ChangeRecord.inverse = none) :
    undoGo hist state = (false, state, hist) := by
  induction hist with
  | nil => rfl
  | cons r rest ih =>
    by_cases hr : r.reverted = true
    · rw [mostRecentActive, if_pos hr] at h
      rw [undoGo, if_pos hr, ih h]
    · rw [mostRecentActive, if_neg hr] at h
      simp only [Option.some_bind] at h
      rw [undoGo, if_neg hr]
      simp only [h]

/-! ## Claim C2 — undo round-trip -/

/-- C2: undo round-trip.  For every state and every change with a
computable inverse (`generateUndo` succeeds) that `processChange`
actually applies (non-empty, valid, no open batch, not defeated by a
conflict), the result is `Applied` and a subsequent `undo` returns
`true` and restores the state exactly.  Conversely `undo` returns
`false` and has no side effects whatever when the history holds no
unretired record or the most recent unretired record has no computable
inverse. -/
theorem undo_roundtrip :
    (∀ (proc : ChangeProcessor) (state : CreatureState) (change : FormChange),
      change.isEmpty = false →
      validateChange state change = true →
      proc.batchMode = false →
      proc.conflictDefeated change = false →
      (change.generateUndo state).isSome = true →
      (proc.processChange state change).1 = ChangeResult.Applied ∧
      (((proc.processChange state change).2.2).undo
          (proc.processChange state change).2.1).1 = true ∧
      (((proc.processChange state change).2.2).undo
          (proc.processChange state change).2.1).2.1 = state) ∧
    (∀ (proc : ChangeProcessor) (state : CreatureState),
      (mostRecentActive proc.history).bind ChangeRecord.inverse = none →
      proc.undo state = (false, state, proc)) := by
  constructor
  · intro proc state change hne hv hb hc hinv
    obtain ⟨u, hu⟩ := Option.isSome_iff_exists.mp hinv
    have hpc : proc.processChange state change =
        (ChangeResult.Applied, change.applyTo state,
         { proc with history :=
            (ChangeRecord.mk change (change.generateUndo state) false ::
              proc.history).take MAX_HISTORY_SIZE }) := by
      simp [ChangeProcessor.processChange, hne, hv, hb, hc]
    have htake : (ChangeRecord.mk change (change.generateUndo state) false ::
        proc.history).take MAX_HISTORY_SIZE =
        ChangeRecord.mk change (change.generateUndo state) false ::
          proc.history.take 99 := rfl
    rw [hpc]
    refine ⟨rfl, ?_, ?_⟩
    · simp only [ChangeProcessor.undo, htake, undoGo, hu]
      rfl
    · simp only [ChangeProcessor.undo, htake, undoGo, hu]
      exact FormChange.applyTo_generateUndo change state u hu
  · intro proc state h
    unfold ChangeProcessor.undo
    rw [undoGo_fail proc.history state h]

/-- An all-zero creature state. -/
def zeroState : CreatureState := ⟨zeroSub, zeroSub, zeroSub, zeroSub⟩

/-- A trait change adding `1/4` to `"stamina"`; fully invertible. -/
def undoChange : FormChange :=
  ⟨mkMeta ChangePriority.Normal, none, none,
   some ⟨∅, ∅, [("stamina", 1/4)], false⟩, none⟩

/-- Witness for C2 at concrete inputs: applying the invertible
`undoChange` to the all-zero state and undoing restores the state;
`undo` on the empty history fails without side effects. -/
theorem undo_roundtrip_witness :
    ((ChangeProcessor.init.processChange zeroState undoChange).1 =
        ChangeResult.Applied ∧
     (((ChangeProcessor.init.processChange zeroState undoChange).2.2).undo
        (ChangeProcessor.init.processChange zeroState undoChange).2.1).1 =
        true ∧
     (((ChangeProcessor.init.processChange zeroState undoChange).2.2).undo
        (ChangeProcessor.init.processChange zeroState undoChange).2.1).2.1 =
        zeroState) ∧
    ChangeProcessor.init.undo zeroState =
      (false, zeroState, ChangeProcessor.init) :=
  ⟨undo_roundtrip.1 ChangeProcessor.init zeroState undoChange rfl
     (by norm_num [validateChange, validOptDelta, undoChange, zeroState,
       zeroSub, modSum]) rfl rfl rfl,
   undo_roundtrip.2 ChangeProcessor.init zeroState rfl⟩

theorem sortByPriority_pair_lt (A B : FormChange)
    (h : B.metadata.priority.toNat < A.metadata.priority.toNat) :
    sortByPriority [A, B] = [A, B] ∧ sortByPriority [B, A] = [A, B] := by
  constructor
  · simp [sortByPriority, insertByPriority, le_of_lt h]
  · simp [sortByPriority, insertByPriority, not_le.mpr h]
/-! ## Claim C4 — priority determinism -/

/-- The processor state after a change is applied and recorded outside
a batch. -/
def afterApplied (proc : ChangeProcessor) (state : CreatureState)
    (c : FormChange) : ChangeProcessor :=
  { proc with history := (ChangeRecord.mk c (c.generateUndo state) false ::
      proc.history).take MAX_HISTORY_SIZE }

/-- C4: priority determinism.  Two conflicting changes `A` (High) and
`B` (Normal) submitted in either order within the same
`processChanges` call produce identical outputs — the stable
priority-descending sort puts `A` first either way — and the common
outcome is `A` applied, `B` conflicting; a low-priority change never
pre-empts a higher-priority one arriving later in the same call. -/
theorem priority_determinism (proc : ChangeProcessor) (state : CreatureState)
    (A B : FormChange)
    (hA : A.metadata.priority = ChangePriority.High)
    (hB : B.metadata.priority = ChangePriority.Normal)
    (hAe : A.isEmpty = false) (hBe : B.isEmpty = false)
    (hAv : validateChange state A = true)
    (hBv : validateChange (A.applyTo state) B = true)
    (hbm : proc.batchMode = false)
    (hAd : proc.conflictDefeated A = false)
    (hconf : A.hasConflictsWith B = true) :
    proc.processChanges state [A, B] = proc.processChanges state [B, A] ∧
    (proc.processChanges state [A, B]).1 =
      [(A, ChangeResult.Applied), (B, ChangeResult.Conflicting)] := by
  have hlt : B.metadata.priority.toNat < A.metadata.priority.toNat := by
    rw [hA, hB]
    decide
  obtain ⟨hs1, hs2⟩ := sortByPriority_pair_lt A B hlt
  have hrec : (ChangeRecord.mk A (A.generateUndo state) false ::
      proc.history).take MAX_HISTORY_SIZE =
      ChangeRecord.mk A (A.generateUndo state) false ::
        proc.history.take 99 := rfl
  have hpcA : proc.processChange state A =
      (ChangeResult.Applied, A.applyTo state, afterApplied proc state A) := by
    simp [ChangeProcessor.processChange, afterApplied, hAe, hAv, hbm, hAd]
  have hdef : (afterApplied proc state A).conflictDefeated B = true := by
    simp [ChangeProcessor.conflictDefeated, afterApplied, hrec, hconf, hlt]
  have hbm2 : (afterApplied proc state A).batchMode = false := by
    simp [afterApplied, hbm]
  have hpcB : (afterApplied proc state A).processChange (A.applyTo state) B =
      (ChangeResult.Conflicting, A.applyTo state, afterApplied proc state A) := by
    simp [ChangeProcessor.processChange, hBe, hBv, hbm2, hdef]
  constructor
  · unfold ChangeProcessor.processChanges
    rw [hs1, hs2]
  · unfold ChangeProcessor.processChanges
    rw [hs1]
    simp only [ChangeProcessor.processSorted, hpcA, hpcB]

/-- A High-priority physical change adding `"wings"`. -/
def wingA : FormChange :=
  ⟨mkMeta ChangePriority.High, some ⟨{"wings"}, ∅, [], false⟩,
   none, none, none⟩

/-- A Normal-priority physical change removing `"wings"`; it conflicts
with `wingA`. -/
def wingB : FormChange :=
  ⟨mkMeta ChangePriority.Normal, some ⟨∅, {"wings"}, [], false⟩,
   none, none, none⟩

/-- Witness for C4 at concrete inputs: the conflicting pair
`wingA` (High) / `wingB` (Normal) yields the same outcome in both
submission orders — `wingA` applied, `wingB` conflicting. -/
theorem priority_determinism_witness :
    ChangeProcessor.init.processChanges zeroState [wingA, wingB] =
      ChangeProcessor.init.processChanges zeroState [wingB, wingA] ∧
    (ChangeProcessor.init.processChanges zeroState [wingA, wingB]).1 =
      [(wingA, ChangeResult.Applied), (wingB, ChangeResult.Conflicting)] :=
  priority_determinism ChangeProcessor.init zeroState wingA wingB rfl rfl rfl
    rfl rfl rfl rfl rfl
    (by simp [FormChange.hasConflictsWith, deltaConflict, wingA, wingB])

theorem take_append_take (n : ℕ) (l1 l2 : List ChangeRecord) :
    (l1 ++ l2.take n).take n = (l1 ++ l2).take n := by
  rw [List.take_append_eq_append_take, List.take_append_eq_append_take,
    List.take_take]
  rw [Nat.min_eq_left (Nat.sub_le n l1.length)]

theorem processChange_applied_iff (proc : ChangeProcessor)
    (state : CreatureState) (change : FormChange) :
    (proc.processChange state change).1 = ChangeResult.Applied ↔
      change.isEmpty = false ∧ validateChange state change = true ∧
      proc.batchMode = false ∧ proc.conflictDefeated change = false := by
  unfold ChangeProcessor.processChange
  split
  · simp_all
  · split
    · simp_all
    · split
      · simp_all
      · split
        · simp_all
        · simp_all

theorem processChange_applied_eq (proc : ChangeProcessor)
    (state : CreatureState) (change : FormChange)
    (h : (proc.processChange state change).1 = ChangeResult.Applied) :
    proc.processChange state change =
      (ChangeResult.Applied, change.applyTo state,
       afterApplied proc state change) := by
  obtain ⟨h1, h2, h3, h4⟩ := (processChange_applied_iff proc state change).mp h
  simp [ChangeProcessor.processChange, afterApplied, h1, h2, h3, h4]

theorem processSorted_history (cs : List FormChange) :
    ∀ (proc : ChangeProcessor) (state : CreatureState),
    proc.history.length ≤ MAX_HISTORY_SIZE →
    (∀ p ∈ (ChangeProcessor.processSorted proc state cs).1,
      p.2 = ChangeResult.Applied) →
    ∃ recs : List ChangeRecord,
      (ChangeProcessor.processSorted proc state cs).2.2.history =
        (recs ++ proc.history).take MAX_HISTORY_SIZE ∧
      recs.map ChangeRecord.change = cs.reverse ∧
      (∀ r ∈ recs, r.reverted = false) := by
  induction cs with
  | nil =>
    intro proc state hlen _
    refine ⟨[], ?_, by simp, by simp⟩
    simp [ChangeProcessor.processSorted, List.take_of_length_le hlen]
  | cons c rest ih =>
    intro proc state hlen hall
    have hmem : (c, (proc.processChange state c).1) ∈
        (ChangeProcessor.processSorted proc state (c :: rest)).1 := by
      simp [ChangeProcessor.processSorted]
    have hc : (proc.processChange state c).1 = ChangeResult.Applied :=
      hall _ hmem
    have heq := processChange_applied_eq proc state c hc
    have htail : (ChangeProcessor.processSorted proc state (c :: rest)).2.2 =
        (ChangeProcessor.processSorted (afterApplied proc state c)
          (c.applyTo state) rest).2.2 := by
      simp only [ChangeProcessor.processSorted, heq]
    have hall2 : ∀ p ∈ (ChangeProcessor.processSorted (afterApplied proc state c)
        (c.applyTo state) rest).1, p.2 = ChangeResult.Applied := by
      intro p hp
      apply hall
      simp only [ChangeProcessor.processSorted, heq]
      exact List.mem_cons_of_mem _ hp
    have hlen2 : (afterApplied proc state c).history.length ≤ MAX_HISTORY_SIZE := by
      simp only [afterApplied]
      rw [List.length_take]
      exact Nat.min_le_left _ _
    obtain ⟨recs, hhist, hmap, hrev⟩ :=
      ih (afterApplied proc state c) (c.applyTo state) hlen2 hall2
    refine ⟨recs ++ [ChangeRecord.mk c (c.generateUndo state) false], ?_, ?_, ?_⟩
    · rw [htail, hhist]
      simp only [afterApplied]
      rw [take_append_take]
      congr 1
      simp
    · simp [hmap]
    · intro r hr
      rcases List.mem_append.mp hr with h | h
      · exact hrev r h
      · simp only [List.mem_singleton] at h
        subst h
        rfl

/-! ## Claim C6 — history bound -/

/-- C6: history bound.  After sequentially applying a list of changes
(no batch open) that all return `Applied`, starting from a fresh
processor, the history length is exactly `min M MAX_HISTORY_SIZE`
(capacity 100), the history holds exactly the most recent changes in
newest-first insertion order (`take` of the reversed input — the
oldest records are the ones evicted, FIFO), and undo of the records
still present is never broken by eviction: every surviving record is
unreverted and `canUndo` holds whenever any change was applied. -/
theorem history_bound (changes : List FormChange) (state : CreatureState)
    (hall : ∀ p ∈ (ChangeProcessor.processSorted ChangeProcessor.init state
      changes).1, p.2 = ChangeResult.Applied) :
    (ChangeProcessor.processSorted ChangeProcessor.init state
        changes).2.2.history.length = min changes.length MAX_HISTORY_SIZE ∧
    (ChangeProcessor.processSorted ChangeProcessor.init state
        changes).2.2.history.map ChangeRecord.change =
      changes.reverse.take MAX_HISTORY_SIZE ∧
    (changes ≠ [] → (ChangeProcessor.processSorted ChangeProcessor.init state
        changes).2.2.canUndo = true) := by
  obtain ⟨recs, hhist, hmap, hrev⟩ :=
    processSorted_history changes ChangeProcessor.init state
      (by simp [ChangeProcessor.init, MAX_HISTORY_SIZE]) hall
  have hlenrecs : recs.length = changes.length := by
    have := congrArg List.length hmap
    simpa using this
  rw [show ChangeProcessor.init.history = [] from rfl, List.append_nil]
    at hhist
  refine ⟨?_, ?_, ?_⟩
  · rw [hhist, List.length_take, hlenrecs, Nat.min_comm]
  · rw [hhist, List.map_take, hmap]
  · intro hne
    have hpos : 0 < (ChangeProcessor.processSorted ChangeProcessor.init state
        changes).2.2.history.length := by
      rw [hhist, List.length_take, hlenrecs]
      have : 0 < changes.length := List.length_pos.mpr hne
      simp [MAX_HISTORY_SIZE]
      omega
    obtain ⟨r, hr⟩ := List.exists_mem_of_length_pos hpos
    have hrrecs : r ∈ recs := by
      rw [hhist] at hr
      exact List.take_subset _ _ hr
    unfold ChangeProcessor.canUndo
    rw [List.any_eq_true]
    exact ⟨r, hr, by rw [hrev r hrrecs]; rfl⟩

/-- A Normal-priority physical change adding `"spines"`; always
applies on a fresh processor. -/
def histChange : FormChange :=
  ⟨mkMeta ChangePriority.Normal, some ⟨{"spines"}, ∅, [], false⟩,
   none, none, none⟩

/-- Witness for C6 at a concrete input: one applied change yields a
history of length `min 1 100 = 1` holding exactly that change,
unreverted and undoable. -/
theorem history_bound_witness :
    (ChangeProcessor.processSorted ChangeProcessor.init zeroState
        [histChange]).2.2.history.length =
      min [histChange].length MAX_HISTORY_SIZE ∧
    (ChangeProcessor.processSorted ChangeProcessor.init zeroState
        [histChange]).2.2.history.map ChangeRecord.change =
      [histChange].reverse.take MAX_HISTORY_SIZE ∧
    ([histChange] ≠ [] → (ChangeProcessor.processSorted ChangeProcessor.init
        zeroState [histChange]).2.2.canUndo = true) :=
  history_bound [histChange] zeroState (by
    intro p hp
    have hres : (ChangeProcessor.processSorted ChangeProcessor.init zeroState
        [histChange]).1 = [(histChange, ChangeResult.Applied)] := by
      simp [ChangeProcessor.processSorted, ChangeProcessor.processChange,
        histChange, FormChange.isEmpty, validateChange, validOptDelta,
        ChangeProcessor.conflictDefeated, ChangeProcessor.init]
    rw [hres] at hp
    simp only [List.mem_singleton] at hp
    subst hp
    rfl)

/-! ## Stress engine (headers `StressState.h`, `StressorDefinition.h`,
    `StressCalculator.h`, `StressManager.h`; member bodies are not in
    the source tree, so the operations are modelled from specification
    section 4.2) -/

/-- Polymorphic association-list write (overwrite first match, append
otherwise), shared by the modelled maps. -/
def updateA {α : Type} : List (String × α) → String → α →
    List (String × α)
  | [], k, v => [(k, v)]
  | p :: rest, k, v =>
    if p.1 = k then (k, v) :: rest else p :: updateA rest k v

theorem lookupA_updateA_self {α : Type} (m : List (String × α))
    (k : String) (v : α) : lookupA (updateA m k v) k = some v := by
  induction m with
  | nil => simp [updateA, lookupA]
  | cons p rest ih =>
    by_cases hp : p.1 = k
    · simp [updateA, lookupA, hp]
    · simpa [updateA, lookupA, hp] using ih

theorem lookupA_updateA_ne {α : Type} (m : List (String × α))
    (k : String) (v : α) (t : String) (h : k ≠ t) :
    lookupA (updateA m k v) t = lookupA m t := by
  induction m with
  | nil => simp [updateA, lookupA, h]
  | cons p rest ih =>
    by_cases hp : p.1 = k
    · simp [updateA, lookupA, hp, h]
    · simp only [updateA, if_neg hp, lookupA]
      by_cases hpt : p.1 = t
      · simp [hpt]
      · simpa [hpt] using ih

theorem mem_updateA {α : Type} (m : List (String × α)) (k : String)
    (v : α) : ∀ p ∈ updateA m k v, p = (k, v) ∨ p ∈ m := by
  induction m with
  | nil => simp [updateA]
  | cons q rest ih =>
    intro p hp
    by_cases hq : q.1 = k
    · rw [updateA, if_pos hq] at hp
      rcases List.mem_cons.mp hp with h | h
      · exact Or.inl h
      · exact Or.inr (List.mem_cons_of_mem _ h)
    · rw [updateA, if_neg hq] at hp
      rcases List.mem_cons.mp hp with h | h
      · exact Or.inr (h ▸ List.mem_cons_self _ _)
      · rcases ih p h with h2 | h2
        · exact Or.inl h2
        · exact Or.inr (List.mem_cons_of_mem _ h2)

/-- Embedding of `StressorDefinition::StressorConfig` (the fields that
carry behaviour in section 4.2): identifier, stressor type, base
intensity, accumulation and dissipation rates, the continuous flag,
and the resistance profile's `adaptationRate` (the rate at which
resistance is acquired). -/
structure StressorConfig where
  id : String
  stressorType : String
  baseIntensity : ℚ
  accumulationRate : ℚ
  dissipationRate : ℚ
  isContinuous : Bool
  adaptationRate : ℚ
deriving DecidableEq, Repr

/-- Embedding of `StressState::StressProfile::ActiveStressor` (with
the stressor type carried alongside the id so resistance can be
resolved from the entry alone). -/
structure ActiveStressor where
  id : String
  stressorType : String
  currentIntensity : ℚ
  activeTime : ℚ
  isContinuous : Bool
deriving DecidableEq, Repr

/-- Modelled from the spec: the per-creature stress ledger of section
3 — active stressors by id, the accumulated (effective) level, and
per-type resistances; the two maps are association lists. -/
structure StressLedger where
  activeStressors : List (String × ActiveStressor)
  accumulatedLevel : ℚ
  resistances : List (String × ℚ)
deriving DecidableEq, Repr

/-- The empty ledger of a fresh creature. -/
def initialLedger : StressLedger := ⟨[], 0, []⟩

/-- Resistance recorded for a stressor type (0 when none yet). -/
def resistanceOf (lg : StressLedger) (t : String) : ℚ :=
  (lookupA lg.resistances t).getD 0

/-- The ledger entry for a stressor id, or a fresh zero entry. -/
def entry0 (lg : StressLedger) (cfg : StressorConfig) : ActiveStressor :=
  (lookupA lg.activeStressors cfg.id).getD
    ⟨cfg.id, cfg.stressorType, 0, 0, cfg.isContinuous⟩

/-- Modelled from the spec: `calculateEffectiveStress` — the clamped
weighted sum of active intensities net of type resistance. -/
def calculateEffectiveStress (lg : StressLedger) : ℚ :=
  clamp01 ((lg.activeStressors.map (fun p =>
    p.2.currentIntensity * (1 - resistanceOf lg p.2.stressorType))).sum)

/-- Modelled from the spec: the per-stressor body of `applyExposure` —
add `accumulationRate × (1 − resistance) × deltaTime` to the current
intensity (clamped), increment `activeTime`, and grow the type's
resistance by `adaptationRate × deltaTime` clamped to 1. -/
def exposeStep (deltaTime : ℚ) (lg : StressLedger) (cfg : StressorConfig) :
    StressLedger :=
  let r := resistanceOf lg cfg.stressorType
  let e := entry0 lg cfg
  let newIntensity :=
    clamp01 (e.currentIntensity + cfg.accumulationRate * (1 - r) * deltaTime)
  let e' := { e with currentIntensity := newIntensity, activeTime := e.activeTime + deltaTime }
  let newRes := min 1 (r + cfg.adaptationRate * deltaTime)
  ⟨updateA lg.activeStressors cfg.id e', lg.accumulatedLevel,
   updateA lg.resistances cfg.stressorType newRes⟩

/-- Modelled from the spec: `applyExposure(creatureId, environment,
deltaTime)` — every stressor mapped to the environment accumulates
(continuous ones always, periodic ones only when their external
schedule `sched` marks them active), then the accumulated level is
recomputed as the clamped effective stress. -/
def applyExposure (sched : String → Bool)
    (defs : String → List StressorConfig) (lg : StressLedger)
    (environment : String) (deltaTime : ℚ) : StressLedger :=
  let stepped := (defs environment).foldl (fun acc cfg =>
    if cfg.isContinuous || sched cfg.id then exposeStep deltaTime acc cfg
    else acc) lg
  { stepped with accumulatedLevel := calculateEffectiveStress stepped }

/-- Modelled from the spec: `dissipate(creatureId, deltaTime)` — each
stressor no longer active loses `dissipationRate × deltaTime` of
intensity toward 0 and its entry is removed on reaching 0; resistances
are untouched (resistance decays only through explicit external
configuration outside this core). -/
def dissipate (stillActive : String → Bool) (rateOf : String → ℚ)
    (lg : StressLedger) (deltaTime : ℚ) : StressLedger :=
  let stepped := lg.activeStressors.filterMap (fun p =>
    if stillActive p.1 then some p
    else
      let newIntensity := max 0 (p.2.currentIntensity - rateOf p.1 * deltaTime)
      if newIntensity = 0 then none
      else some (p.1, { p.2 with currentIntensity := newIntensity }))
  let lg2 : StressLedger := ⟨stepped, lg.accumulatedLevel, lg.resistances⟩
  { lg2 with accumulatedLevel := calculateEffectiveStress lg2 }

/-- One call of the stress engine: an exposure tick or a dissipation
tick. -/
inductive StressOp where
  | expose : String → ℚ → StressOp
  | dissipate : (String → Bool) → ℚ → StressOp

/-- Non-negative elapsed time for a call. -/
def StressOp.wf : StressOp → Prop
  | .expose _ dt => 0 ≤ dt
  | .dissipate _ dt => 0 ≤ dt

/-- A sequence of stress-engine calls. -/
def runOps (sched : String → Bool) (defs : String → List StressorConfig)
    (rateOf : String → ℚ) : StressLedger → List StressOp → StressLedger
  | lg, [] => lg
  | lg, StressOp.expose env dt :: rest =>
    runOps sched defs rateOf (applyExposure sched defs lg env dt) rest
  | lg, StressOp.dissipate still dt :: rest =>
    runOps sched defs rateOf (dissipate still rateOf lg dt) rest

/-- The clamping invariant of the stress ledger: every active
intensity, the accumulated level and every resistance entry lie in
`[0, 1]`. -/
def LedgerInvariant (lg : StressLedger) : Prop :=
  (∀ p ∈ lg.activeStressors,
    0 ≤ p.2.currentIntensity ∧ p.2.currentIntensity ≤ 1) ∧
  (0 ≤ lg.accumulatedLevel ∧ lg.accumulatedLevel ≤ 1) ∧
  (∀ p ∈ lg.resistances, 0 ≤ p.2 ∧ p.2 ≤ 1)

theorem lookupA_mem {α : Type} (m : List (String × α)) (t : String) (v : α)
    (h : lookupA m t = some v) : (t, v) ∈ m := by
  induction m with
  | nil => simp [lookupA] at h
  | cons p rest ih =>
    rw [lookupA] at h
    by_cases hp : p.1 = t
    · rw [if_pos hp, Option.some.injEq] at h
      subst h
      subst hp
      exact List.mem_cons_self _ _
    · rw [if_neg hp] at h
      exact List.mem_cons_of_mem _ (ih h)

theorem resistanceOf_bounds (lg : StressLedger) (hlg : LedgerInvariant lg)
    (t : String) : 0 ≤ resistanceOf lg t ∧ resistanceOf lg t ≤ 1 := by
  unfold resistanceOf
  cases hl : lookupA lg.resistances t with
  | none => simp
  | some v =>
    simp only [Option.getD_some]
    exact hlg.2.2 (t, v) (lookupA_mem _ _ _ hl)

theorem exposeStep_invariant (dt : ℚ) (lg : StressLedger)
    (cfg : StressorConfig) (hdt : 0 ≤ dt) (hacq : 0 ≤ cfg.adaptationRate)
    (hlg : LedgerInvariant lg) :
    LedgerInvariant (exposeStep dt lg cfg) ∧
    (∀ t, resistanceOf lg t ≤ resistanceOf (exposeStep dt lg cfg) t) := by
  obtain ⟨hr0, hr1⟩ := resistanceOf_bounds lg hlg cfg.stressorType
  constructor
  · refine ⟨?_, hlg.2.1, ?_⟩
    · intro p hp
      rcases mem_updateA _ _ _ p hp with h | h
      · subst h
        exact clamp01_mem _
      · exact hlg.1 p h
    · intro p hp
      rcases mem_updateA _ _ _ p hp with h | h
      · subst h
        constructor
        · exact le_min (by norm_num)
            (add_nonneg hr0 (mul_nonneg hacq hdt))
        · exact min_le_left _ _
      · exact hlg.2.2 p h
  · intro t
    unfold exposeStep resistanceOf
    simp only
    by_cases ht : cfg.stressorType = t
    · subst ht
      rw [lookupA_updateA_self]
      simp only [Option.getD_some]
      exact le_min hr1
        (le_add_of_nonneg_right (mul_nonneg hacq hdt))
    · rw [lookupA_updateA_ne _ _ _ _ ht]

theorem exposeFold_invariant (dt : ℚ) (hdt : 0 ≤ dt)
    (sched : String → Bool) (cfgs : List StressorConfig)
    (hacq : ∀ cfg ∈ cfgs, 0 ≤ cfg.adaptationRate) :
    ∀ lg, LedgerInvariant lg →
    LedgerInvariant (cfgs.foldl (fun acc cfg =>
      if cfg.isContinuous || sched cfg.id then exposeStep dt acc cfg
      else acc) lg) ∧
    (∀ t, resistanceOf lg t ≤ resistanceOf (cfgs.foldl (fun acc cfg =>
      if cfg.isContinuous || sched cfg.id then exposeStep dt acc cfg
      else acc) lg) t) := by
  induction cfgs with
  | nil =>
    intro lg hlg
    exact ⟨hlg, fun t => le_refl _⟩
  | cons c rest ih =>
    intro lg hlg
    rw [List.foldl_cons]
    by_cases hc : (c.isContinuous || sched c.id) = true
    · rw [if_pos hc]
      obtain ⟨hinv1, hmono1⟩ := exposeStep_invariant dt lg c hdt
        (hacq c (List.mem_cons_self _ _)) hlg
      obtain ⟨hinv2, hmono2⟩ := ih (fun cfg hcfg =>
        hacq cfg (List.mem_cons_of_mem _ hcfg)) (exposeStep dt lg c) hinv1
      exact ⟨hinv2, fun t => le_trans (hmono1 t) (hmono2 t)⟩
    · rw [if_neg hc]
      exact ih (fun cfg hcfg => hacq cfg (List.mem_cons_of_mem _ hcfg)) lg hlg

theorem applyExposure_invariant (sched : String → Bool)
    (defs : String → List StressorConfig) (lg : StressLedger)
    (env : String) (dt : ℚ) (hdt : 0 ≤ dt)
    (hacq : ∀ cfg ∈ defs env, 0 ≤ cfg.adaptationRate)
    (hlg : LedgerInvariant lg) :
    LedgerInvariant (applyExposure sched defs lg env dt) ∧
    (∀ t, resistanceOf lg t ≤
      resistanceOf (applyExposure sched defs lg env dt) t) := by
  obtain ⟨hinv, hmono⟩ :=
    exposeFold_invariant dt hdt sched (defs env) hacq lg hlg
  constructor
  · exact ⟨hinv.1, clamp01_mem _, hinv.2.2⟩
  · intro t
    exact hmono t

theorem dissipate_resistances (stillActive : String → Bool)
    (rateOf : String → ℚ) (lg : StressLedger) (dt : ℚ) :
    (dissipate stillActive rateOf lg dt).resistances = lg.resistances := rfl

theorem dissipate_invariant (stillActive : String → Bool)
    (rateOf : String → ℚ) (lg : StressLedger) (dt : ℚ) (hdt : 0 ≤ dt)
    (hrate : ∀ i, 0 ≤ rateOf i) (hlg : LedgerInvariant lg) :
    LedgerInvariant (dissipate stillActive rateOf lg dt) := by
  refine ⟨?_, clamp01_mem _, hlg.2.2⟩
  intro p hp
  simp only [dissipate, List.mem_filterMap] at hp
  obtain ⟨q, hq, hfq⟩ := hp
  by_cases hs : stillActive q.1 = true
  · rw [if_pos hs, Option.some.injEq] at hfq
    subst hfq
    exact hlg.1 q hq
  · rw [if_neg hs] at hfq
    split at hfq
    · exact absurd hfq (by simp)
    · rw [Option.some.injEq] at hfq
      subst hfq
      constructor
      · exact le_max_left _ _
      · refine max_le (by norm_num) ?_
        have := (hlg.1 q hq).2
        have hnn : 0 ≤ rateOf q.1 * dt := mul_nonneg (hrate q.1) hdt
        linarith

theorem runOps_invariant (sched : String → Bool)
    (defs : String → List StressorConfig) (rateOf : String → ℚ)
    (hacq : ∀ env, ∀ cfg ∈ defs env, 0 ≤ cfg.adaptationRate)
    (hrate : ∀ i, 0 ≤ rateOf i) (ops : List StressOp) :
    ∀ lg, (∀ op ∈ ops, op.wf) → LedgerInvariant lg →
    LedgerInvariant (runOps sched defs rateOf lg ops) := by
  induction ops with
  | nil =>
    intro lg _ hlg
    exact hlg
  | cons op rest ih =>
    intro lg hwf hlg
    have hop : op.wf := hwf op (List.mem_cons_self _ _)
    have hwf2 : ∀ o ∈ rest, o.wf := fun o ho =>
      hwf o (List.mem_cons_of_mem _ ho)
    cases op with
    | expose env dt =>
      exact ih _ hwf2 ((applyExposure_invariant sched defs lg env dt hop
        (hacq env) hlg).1)
    | dissipate still dt =>
      exact ih _ hwf2 (dissipate_invariant still rateOf lg dt hop hrate hlg)

/-! ## Claim C5 — stress clamping and resistance monotonicity -/

/-- C5: stress clamping.  For well-formed stressor configurations
(non-negative adaptation and dissipation rates) and every sequence of
`applyExposure`/`dissipate` calls with non-negative elapsed time,
every active intensity, the accumulated level and every resistance
entry stay in `[0, 1]` after every call; resistance is monotonically
non-decreasing across every exposure call, and a dissipation call
never touches the resistances (they decay only through explicit
external configuration). -/
theorem stress_clamping (sched : String → Bool)
    (defs : String → List StressorConfig) (rateOf : String → ℚ)
    (hacq : ∀ env, ∀ cfg ∈ defs env, 0 ≤ cfg.adaptationRate)
    (hrate : ∀ i, 0 ≤ rateOf i) :
    (∀ ops : List StressOp, ∀ lg, (∀ op ∈ ops, op.wf) →
      LedgerInvariant lg →
      LedgerInvariant (runOps sched defs rateOf lg ops)) ∧
    (∀ lg env dt, 0 ≤ dt → LedgerInvariant lg → ∀ t,
      resistanceOf lg t ≤
        resistanceOf (applyExposure sched defs lg env dt) t) ∧
    (∀ still lg dt,
      (dissipate still rateOf lg dt).resistances = lg.resistances) :=
  ⟨fun ops lg hwf hlg =>
    runOps_invariant sched defs rateOf hacq hrate ops lg hwf hlg,
   fun lg env dt hdt hlg t =>
    (applyExposure_invariant sched defs lg env dt hdt (hacq env) hlg).2 t,
   fun _ _ _ => rfl⟩

/-- The specification's thermal stressor: accumulation rate `0.2`,
continuous, no resistance growth. -/
def thermalCfg : StressorConfig := ⟨"thermal", "thermal", 0, 1/5, 0, true, 0⟩

/-- A stressor-to-environment mapping exposing the thermal stressor in
the tundra. -/
def thermalDefs : String → List StressorConfig :=
  fun e => if e = "tundra" then [thermalCfg] else []

theorem thermalDefs_acq : ∀ env, ∀ cfg ∈ thermalDefs env,
    0 ≤ cfg.adaptationRate := by
  intro env cfg hcfg
  unfold thermalDefs at hcfg
  split at hcfg
  · simp only [List.mem_singleton] at hcfg
    subst hcfg
    norm_num [thermalCfg]
  · simp at hcfg

theorem initialLedger_invariant : LedgerInvariant initialLedger := by
  refine ⟨?_, ?_, ?_⟩
  · intro p hp
    simp [initialLedger] at hp
  · norm_num [initialLedger]
  · intro p hp
    simp [initialLedger] at hp

/-- Witness for C5 at concrete inputs: one exposure tick of the
thermal stressor on a fresh ledger keeps the invariant, grows no
resistance below its prior value, and dissipation leaves resistances
untouched. -/
theorem stress_clamping_witness :
    LedgerInvariant (runOps (fun _ => false) thermalDefs (fun _ => 0)
      initialLedger [StressOp.expose "tundra" 1]) ∧
    (∀ t, resistanceOf initialLedger t ≤ resistanceOf
      (applyExposure (fun _ => false) thermalDefs initialLedger
        "tundra" 1) t) ∧
    (dissipate (fun _ => false) (fun _ => 0) initialLedger 1).resistances =
      initialLedger.resistances := by
  obtain ⟨h1, h2, h3⟩ := stress_clamping (fun _ => false) thermalDefs
    (fun _ => 0) thermalDefs_acq (fun _ => le_refl 0)
  refine ⟨h1 _ _ ?_ initialLedger_invariant,
    fun t => h2 initialLedger "tundra" 1 (by norm_num)
      initialLedger_invariant t,
    h3 _ _ _⟩
  intro op hop
  simp only [List.mem_singleton] at hop
  subst hop
  norm_num [StressOp.wf]

/-! ## Claim C7 — exposure accumulation -/

/-- The expected ledger entry after one exposure tick of a stressor:
intensity grown by `accumulationRate × (1 − resistance) × deltaTime`
(clamped) and `activeTime` incremented by the tick. -/
def exposedEntry (lg : StressLedger) (cfg : StressorConfig) (dt : ℚ) :
    ActiveStressor :=
  { entry0 lg cfg with
    currentIntensity := clamp01 ((entry0 lg cfg).currentIntensity +
      cfg.accumulationRate * (1 - resistanceOf lg cfg.stressorType) * dt),
    activeTime := (entry0 lg cfg).activeTime + dt }

/-- One exposure tick of the thermal stressor with `deltaTime = 1`. -/
def thermalTick (lg : StressLedger) : StressLedger :=
  applyExposure (fun _ => false) thermalDefs lg "tundra" 1

theorem applyExposure_activeStressors (sched : String → Bool)
    (defs : String → List StressorConfig) (lg : StressLedger)
    (env : String) (dt : ℚ) :
    (applyExposure sched defs lg env dt).activeStressors =
    ((defs env).foldl (fun acc cfg =>
      if cfg.isContinuous || sched cfg.id then exposeStep dt acc cfg
      else acc) lg).activeStressors := rfl

theorem exposeStep_lookup_ne (dt : ℚ) (lg : StressLedger)
    (c : StressorConfig) (k : String) (h : c.id ≠ k) :
    lookupA (exposeStep dt lg c).activeStressors k =
      lookupA lg.activeStressors k := by
  unfold exposeStep
  exact lookupA_updateA_ne _ _ _ _ h

theorem exposeStep_resistance_ne (dt : ℚ) (lg : StressLedger)
    (c : StressorConfig) (t : String) (h : c.stressorType ≠ t) :
    resistanceOf (exposeStep dt lg c) t = resistanceOf lg t := by
  unfold resistanceOf exposeStep
  rw [lookupA_updateA_ne _ _ _ _ h]

theorem exposedEntry_congr (lg lg' : StressLedger) (cfg : StressorConfig)
    (dt : ℚ)
    (he : lookupA lg'.activeStressors cfg.id =
      lookupA lg.activeStressors cfg.id)
    (hr : resistanceOf lg' cfg.stressorType =
      resistanceOf lg cfg.stressorType) :
    exposedEntry lg' cfg dt = exposedEntry lg cfg dt := by
  unfold exposedEntry entry0
  rw [he, hr]

theorem exposeFold_lookup_not_mem (sched : String → Bool) (dt : ℚ) :
    ∀ (cfgs : List StressorConfig) (lg : StressLedger) (k : String),
    k ∉ cfgs.map (fun c => c.id) →
    lookupA (cfgs.foldl (fun acc cfg =>
      if cfg.isContinuous || sched cfg.id then exposeStep dt acc cfg
      else acc) lg).activeStressors k = lookupA lg.activeStressors k := by
  intro cfgs
  induction cfgs with
  | nil =>
    intro lg k _
    rfl
  | cons c rest ih =>
    intro lg k hk
    rw [List.map_cons, List.mem_cons] at hk
    push_neg at hk
    obtain ⟨hk1, hk2⟩ := hk
    rw [List.foldl_cons]
    by_cases hg : (c.isContinuous || sched c.id) = true
    · rw [if_pos hg, ih _ _ hk2]
      exact exposeStep_lookup_ne dt lg c k (fun h => hk1 h.symm)
    · rw [if_neg hg, ih _ _ hk2]

theorem exposeFold_formula (sched : String → Bool) (dt : ℚ) :
    ∀ (cfgs : List StressorConfig) (lg : StressLedger),
    (cfgs.map (fun c => c.id)).Nodup →
    (cfgs.map (fun c => c.stressorType)).Nodup →
    ∀ cfg ∈ cfgs,
    ((cfg.isContinuous || sched cfg.id) = true →
      lookupA (cfgs.foldl (fun acc cfg =>
        if cfg.isContinuous || sched cfg.id then exposeStep dt acc cfg
        else acc) lg).activeStressors cfg.id =
        some (exposedEntry lg cfg dt)) ∧
    ((cfg.isContinuous || sched cfg.id) = false →
      lookupA (cfgs.foldl (fun acc cfg =>
        if cfg.isContinuous || sched cfg.id then exposeStep dt acc cfg
        else acc) lg).activeStressors cfg.id =
        lookupA lg.activeStressors cfg.id) := by
  intro cfgs
  induction cfgs with
  | nil =>
    intro lg _ _ cfg hcfg
    simp at hcfg
  | cons c rest ih =>
    intro lg hids htypes cfg hcfg
    rw [List.map_cons, List.nodup_cons] at hids htypes
    obtain ⟨hid1, hid2⟩ := hids
    obtain ⟨hty1, hty2⟩ := htypes
    rw [List.foldl_cons]
    rcases List.mem_cons.mp hcfg with hceq | hmem
    · subst hceq
      constructor
      · intro hg
        rw [if_pos hg,
          exposeFold_lookup_not_mem sched dt rest (exposeStep dt lg cfg)
            cfg.id hid1]
        unfold exposeStep exposedEntry
        simp only
        exact lookupA_updateA_self _ _ _
      · intro hg
        rw [if_neg (by rw [hg]; exact Bool.false_ne_true)]
        exact exposeFold_lookup_not_mem sched dt rest lg cfg.id hid1
    · have hne_id : c.id ≠ cfg.id := fun h =>
        hid1 (h ▸ List.mem_map_of_mem (fun x => x.id) hmem)
      have hne_ty : c.stressorType ≠ cfg.stressorType := fun h =>
        hty1 (h ▸ List.mem_map_of_mem (fun x => x.stressorType) hmem)
      by_cases hg : (c.isContinuous || sched c.id) = true
      · rw [if_pos hg]
        obtain ⟨ih1, ih2⟩ := ih (exposeStep dt lg c) hid2 hty2 cfg hmem
        constructor
        · intro h
          rw [ih1 h,
            exposedEntry_congr lg (exposeStep dt lg c) cfg dt
              (exposeStep_lookup_ne dt lg c cfg.id hne_id)
              (exposeStep_resistance_ne dt lg c cfg.stressorType hne_ty)]
        · intro h
          rw [ih2 h]
          exact exposeStep_lookup_ne dt lg c cfg.id hne_id
      · rw [if_neg hg]
        exact ih lg hid2 hty2 cfg hmem

/-- C7: exposure accumulation.  On every exposure tick over any
environment mapping any number of distinct stressors (distinct ids and
resistance types), each stressor mapped to the exposed environment
that accumulates on the tick (continuous, or periodic and scheduled)
adds `accumulationRate × (1 − resistance) × deltaTime` to its current
intensity (clamped to 1) and its `activeTime` is incremented by the
tick, while a periodic stressor off schedule keeps its entry
untouched; in particular, a creature with zero thermal resistance
exposed to a thermal stressor of accumulation rate `0.2` for 5 ticks
of `deltaTime = 1` with no dissipation ends with current intensity
exactly `1`. -/
theorem exposure_accumulation :
    (∀ (sched : String → Bool) (defs : String → List StressorConfig)
      (lg : StressLedger) (env : String) (dt : ℚ),
      ((defs env).map (fun c => c.id)).Nodup →
      ((defs env).map (fun c => c.stressorType)).Nodup →
      ∀ cfg ∈ defs env,
      ((cfg.isContinuous || sched cfg.id) = true →
        lookupA (applyExposure sched defs lg env dt).activeStressors cfg.id =
          some (exposedEntry lg cfg dt)) ∧
      ((cfg.isContinuous || sched cfg.id) = false →
        lookupA (applyExposure sched defs lg env dt).activeStressors cfg.id =
          lookupA lg.activeStressors cfg.id)) ∧
    lookupA (thermalTick (thermalTick (thermalTick (thermalTick
        (thermalTick initialLedger))))).activeStressors "thermal" =
      some ⟨"thermal", "thermal", 1, 5, true⟩ := by
  constructor
  · intro sched defs lg env dt hids htypes cfg hcfg
    rw [applyExposure_activeStressors sched defs lg env dt]
    exact exposeFold_formula sched dt (defs env) lg hids htypes cfg hcfg
  · norm_num [thermalTick, applyExposure, thermalDefs, thermalCfg,
      exposeStep, entry0, resistanceOf, lookupA, updateA, clamp01,
      calculateEffectiveStress, initialLedger, min_def, max_def]

/-- A second continuous stressor (a toxin of accumulation rate `0.1`)
for a multi-stressor environment. -/
def toxinCfg : StressorConfig := ⟨"toxin", "toxin", 0, 1/10, 0, true, 0⟩

/-- A stressor-to-environment mapping exposing two stressors in the
swamp. -/
def swampDefs : String → List StressorConfig :=
  fun e => if e = "swamp" then [thermalCfg, toxinCfg] else []

/-- Witness for C7 at concrete inputs: one tick over a two-stressor
environment produces exactly the formula entry for each of the two
stressors. -/
theorem exposure_accumulation_witness :
    lookupA (applyExposure (fun _ => false) swampDefs initialLedger
        "swamp" 1).activeStressors thermalCfg.id =
      some (exposedEntry initialLedger thermalCfg 1) ∧
    lookupA (applyExposure (fun _ => false) swampDefs initialLedger
        "swamp" 1).activeStressors toxinCfg.id =
      some (exposedEntry initialLedger toxinCfg 1) :=
  ⟨(exposure_accumulation.1 (fun _ => false) swampDefs initialLedger
      "swamp" 1 (by simp [swampDefs, thermalCfg, toxinCfg])
      (by simp [swampDefs, thermalCfg, toxinCfg])
      thermalCfg (by simp [swampDefs])).1 rfl,
   (exposure_accumulation.1 (fun _ => false) swampDefs initialLedger
      "swamp" 1 (by simp [swampDefs, thermalCfg, toxinCfg])
      (by simp [swampDefs, thermalCfg, toxinCfg])
      toxinCfg (by simp [swampDefs])).1 rfl⟩

/-! ## Synthesis engine (headers `SynthesisState.h`, `SynthesisRules.h`,
    `SynthesisEnums.h`; member bodies are not in the source tree, so
    the state machine is modelled from specification section 4.3) -/

/-- Embedding of `crescent::traits::SynthesisStage` from
`SynthesisEnums.h`. -/
inductive SynthesisStage where
  | None
  | Initiating
  | Forming
  | Stabilizing
  | Complete
  | Degrading
  | Critical
deriving DecidableEq, Repr

/-- Embedding of `crescent::traits::CatalystType` from
`SynthesisEnums.h`. -/
inductive CatalystType where
  | Environmental
  | Stress
  | Resonance
  | Forced
  | External
deriving DecidableEq, Repr

/-- Embedding of `crescent::traits::SynthesisFailureType` from
`SynthesisEnums.h`. -/
inductive SynthesisFailureType where
  | Requirements
  | Stability
  | Incompatible
  | Environmental
  | CatalystWeak
  | SystemicFailure
deriving DecidableEq, Repr

/-- Embedding of `crescent::traits::SynthesisRequirement` from
`SynthesisRules.h`. -/
structure SynthesisRequirement where
  minimumIntensity : ℚ
  minimumStability : ℚ
  requiredSynthesisLevel : ℤ
  requiredTraits : List String
deriving DecidableEq, Repr

/-- Modelled from the spec: `SynthesisRequirement::evaluate` (declared
in `SynthesisRules.h`, body missing from the source tree) — the
boolean AND of the intensity, stability and level thresholds and the
presence of every required trait. -/
def SynthesisRequirement.evaluate (req : SynthesisRequirement)
    (intensity stability : ℚ) (synthesisLevel : ℤ)
    (availableTraits : List String) : Bool :=
  decide (req.minimumIntensity ≤ intensity) &&
  decide (req.minimumStability ≤ stability) &&
  decide (req.requiredSynthesisLevel ≤ synthesisLevel) &&
  req.requiredTraits.all (fun t => availableTraits.contains t)

/-- Embedding of `crescent::traits::SynthesisOutcome` from
`SynthesisRules.h`. -/
structure SynthesisOutcome where
  resultForm : String
  grantedAbilities : List String
  stabilityModifier : ℚ
  suppressedTraits : List String
deriving DecidableEq, Repr

/-- Embedding of `SynthesisRules::SynthesisPath`: a registered rule,
keyed by (source form, catalyst type, target form). -/
structure SynthesisPath where
  requirements : SynthesisRequirement
  outcome : SynthesisOutcome
deriving DecidableEq, Repr

/-- Modelled from the spec: the progress record of `SynthesisState`
(`completionLevel`, `stabilityFactor`, `catalystStrength`, all in
`[0,1]`; the timestamp carries no behaviour). -/
structure SynthesisProgress where
  completionLevel : ℚ
  stabilityFactor : ℚ
  catalystStrength : ℚ
deriving DecidableEq, Repr

/-- Modelled from the spec: the per-trait synthesis state machine of
`SynthesisState.h` — current form, stage, progress, and the rule made
active by a successful `beginSynthesis` (catalyst-influence history is
not needed by the claims). -/
structure SynthesisState where
  traitId : String
  currentForm : String
  currentStage : SynthesisStage
  progress : SynthesisProgress
  activeRule : Option SynthesisPath
deriving DecidableEq, Repr

/-- The read-only engine context of one trait: the rule registry
lookup, the creature's available traits and synthesis level, and the
stability decay rate (a tunable configuration value per the spec's
design notes). -/
structure SynthCtx where
  rules : String → CatalystType → String → Option SynthesisPath
  availableTraits : List String
  synthesisLevel : ℤ
  decayRate : ℚ

/-- Typed outcome of one engine call: success, or one of the source's
`SynthesisFailureType` values. -/
inductive SynthOutcomeKind where
  | success
  | failure : SynthesisFailureType → SynthOutcomeKind
deriving DecidableEq, Repr

/-- The `Forming → Stabilizing` completion threshold (0.67 — a design
value the spec marks as tunable configuration). -/
def stabilizingThreshold : ℚ := 67/100

/-- The lower critical stability bound below which a degrading
synthesis becomes `Critical` (tunable configuration). -/
def criticalBound : ℚ := 1/10

/-- Minimum stability demanded by the active rule (0 when none). -/
def SynthesisState.minStab (st : SynthesisState) : ℚ :=
  match st.activeRule with
  | some p => p.requirements.minimumStability
  | none => 0

/-- Modelled from the spec: `SynthesisState::beginSynthesis` — only
legal from `None`; looks up the rule for (currentForm, catalystType,
targetForm); evaluates the requirement; on success moves to
`Initiating` and accumulates catalyst influence; on failure returns a
typed failure kind and changes nothing.  The third component lists the
stage transitions taken. -/
def beginSynthesis (ctx : SynthCtx) (st : SynthesisState)
    (targetForm : String) (catalystType : CatalystType)
    (catalystId : String) (intensity : ℚ) :
    SynthesisState × SynthOutcomeKind ×
      List (SynthesisStage × SynthesisStage) :=
  if st.currentStage ≠ SynthesisStage.None then
    (st, SynthOutcomeKind.failure SynthesisFailureType.SystemicFailure, [])
  else
    match ctx.rules st.currentForm catalystType targetForm with
    | none =>
      (st, SynthOutcomeKind.failure SynthesisFailureType.Incompatible, [])
    | some path =>
      if path.requirements.evaluate intensity st.progress.stabilityFactor
          ctx.synthesisLevel ctx.availableTraits then
        let newProg : SynthesisProgress :=
          ⟨st.progress.completionLevel, st.progress.stabilityFactor,
           st.progress.catalystStrength + intensity⟩
        let st1 := { st with currentStage := SynthesisStage.Initiating, progress := newProg, activeRule := some path }
        (st1, SynthOutcomeKind.success, [(SynthesisStage.None, SynthesisStage.Initiating)])
      else
        (st, SynthOutcomeKind.failure SynthesisFailureType.Requirements, [])

/-- Modelled from the spec: `SynthesisState::progressSynthesis` —
advances completion at a rate proportional to catalyst strength,
decays stability; `Initiating → Forming` once completion is positive,
`Forming → Stabilizing` at the 0.67 threshold, `Forming|Stabilizing →
Degrading` when stability falls below the rule's minimum, `Degrading →
Critical` below the critical bound, and a `Critical` stage resolves to
`None` (progress cleared) on the next call; illegal from `None` and
`Complete`. -/
def progressSynthesis (ctx : SynthCtx) (st : SynthesisState) (dt : ℚ) :
    SynthesisState × SynthOutcomeKind ×
      List (SynthesisStage × SynthesisStage) :=
  match st.currentStage with
  | SynthesisStage.None =>
    (st, SynthOutcomeKind.failure SynthesisFailureType.SystemicFailure, [])
  | SynthesisStage.Complete =>
    (st, SynthOutcomeKind.failure SynthesisFailureType.SystemicFailure, [])
  | SynthesisStage.Critical =>
    let st1 := { st with currentStage := SynthesisStage.None, progress := (⟨0, 1, 0⟩ : SynthesisProgress), activeRule := none }
    (st1, SynthOutcomeKind.success, [(SynthesisStage.Critical, SynthesisStage.None)])
  | SynthesisStage.Degrading =>
    let newStability := st.progress.stabilityFactor - ctx.decayRate * dt
    let newProg : SynthesisProgress :=
      ⟨st.progress.completionLevel, newStability,
       st.progress.catalystStrength⟩
    if newStability < criticalBound then
      ({ st with currentStage := SynthesisStage.Critical, progress := newProg },
       SynthOutcomeKind.success,
       [(SynthesisStage.Degrading, SynthesisStage.Critical)])
    else
      ({ st with progress := newProg }, SynthOutcomeKind.success, [])
  | SynthesisStage.Initiating =>
    let newCompletion :=
      min 1 (st.progress.completionLevel + st.progress.catalystStrength * dt)
    let newStability := st.progress.stabilityFactor - ctx.decayRate * dt
    let newProg : SynthesisProgress :=
      ⟨newCompletion, newStability, st.progress.catalystStrength⟩
    if 0 < newCompletion then
      ({ st with currentStage := SynthesisStage.Forming, progress := newProg },
       SynthOutcomeKind.success,
       [(SynthesisStage.Initiating, SynthesisStage.Forming)])
    else
      ({ st with progress := newProg }, SynthOutcomeKind.success, [])
  | SynthesisStage.Forming =>
    let newCompletion :=
      min 1 (st.progress.completionLevel + st.progress.catalystStrength * dt)
    let newStability := st.progress.stabilityFactor - ctx.decayRate * dt
    let newProg : SynthesisProgress :=
      ⟨newCompletion, newStability, st.progress.catalystStrength⟩
    if newStability < st.minStab then
      ({ st with currentStage := SynthesisStage.Degrading, progress := newProg },
       SynthOutcomeKind.success,
       [(SynthesisStage.Forming, SynthesisStage.Degrading)])
    else if stabilizingThreshold ≤ newCompletion then
      ({ st with currentStage := SynthesisStage.Stabilizing, progress := newProg },
       SynthOutcomeKind.success,
       [(SynthesisStage.Forming, SynthesisStage.Stabilizing)])
    else
      ({ st with progress := newProg }, SynthOutcomeKind.success, [])
  | SynthesisStage.Stabilizing =>
    let newCompletion :=
      min 1 (st.progress.completionLevel + st.progress.catalystStrength * dt)
    let newStability := st.progress.stabilityFactor - ctx.decayRate * dt
    let newProg : SynthesisProgress :=
      ⟨newCompletion, newStability, st.progress.catalystStrength⟩
    if newStability < st.minStab then
      ({ st with currentStage := SynthesisStage.Degrading, progress := newProg },
       SynthOutcomeKind.success,
       [(SynthesisStage.Stabilizing, SynthesisStage.Degrading)])
    else
      ({ st with progress := newProg }, SynthOutcomeKind.success, [])

/-- Modelled from the spec: `SynthesisState::completeSynthesis` — only
legal from `Stabilizing` with full completion; produces the rule's
outcome, transitions through `Complete` and resets to `None` with
`currentForm = resultForm` for the next cycle. -/
def completeSynthesis (st : SynthesisState) :
    SynthesisState × SynthOutcomeKind ×
      List (SynthesisStage × SynthesisStage) :=
  if st.currentStage ≠ SynthesisStage.Stabilizing then
    (st, SynthOutcomeKind.failure SynthesisFailureType.SystemicFailure, [])
  else if st.progress.completionLevel < 1 then
    (st, SynthOutcomeKind.failure SynthesisFailureType.Requirements, [])
  else
    let newForm :=
      match st.activeRule with
      | some p => p.outcome.resultForm
      | none => st.currentForm
    let st1 := { st with currentForm := newForm, currentStage := SynthesisStage.None, progress := (⟨0, 1, 0⟩ : SynthesisProgress), activeRule := none }
    (st1, SynthOutcomeKind.success,
     [(SynthesisStage.Stabilizing, SynthesisStage.Complete),
      (SynthesisStage.Complete, SynthesisStage.None)])

/-- Modelled from the spec: `revertSynthesis` — legal from any
in-progress stage (`Initiating`..`Critical`); forcibly returns to
`None`, discards progress and emits no change. -/
def revertSynthesis (st : SynthesisState) :
    SynthesisState × SynthOutcomeKind ×
      List (SynthesisStage × SynthesisStage) :=
  match st.currentStage with
  | SynthesisStage.None =>
    (st, SynthOutcomeKind.failure SynthesisFailureType.SystemicFailure, [])
  | SynthesisStage.Complete =>
    (st, SynthOutcomeKind.failure SynthesisFailureType.SystemicFailure, [])
  | s =>
    let st1 := { st with currentStage := SynthesisStage.None, progress := (⟨0, 1, 0⟩ : SynthesisProgress), activeRule := none }
    (st1, SynthOutcomeKind.success, [(s, SynthesisStage.None)])

/-- One engine call on a trait's synthesis state. -/
inductive SynthCall where
  | beginC : String → CatalystType → String → ℚ → SynthCall
  | progressC : ℚ → SynthCall
  | completeC : SynthCall
  | revertC : SynthCall

/-- Dispatch of one engine call. -/
def synthStep (ctx : SynthCtx) (st : SynthesisState) :
    SynthCall → SynthesisState × SynthOutcomeKind ×
      List (SynthesisStage × SynthesisStage)
  | SynthCall.beginC target ctype cid intensity =>
    beginSynthesis ctx st target ctype cid intensity
  | SynthCall.progressC dt => progressSynthesis ctx st dt
  | SynthCall.completeC => completeSynthesis st
  | SynthCall.revertC => revertSynthesis st

/-! ## Claim C3 — synthesis stage legality -/

/-- The edge set exactly as the claim states it: the main chain
`None → Initiating → Forming → Stabilizing → Complete` plus the decay
branch `Forming|Stabilizing → Degrading → Critical → None`. -/
def claimEdge : SynthesisStage → SynthesisStage → Bool
  | SynthesisStage.None, SynthesisStage.Initiating => true
  | SynthesisStage.Initiating, SynthesisStage.Forming => true
  | SynthesisStage.Forming, SynthesisStage.Stabilizing => true
  | SynthesisStage.Stabilizing, SynthesisStage.Complete => true
  | SynthesisStage.Forming, SynthesisStage.Degrading => true
  | SynthesisStage.Stabilizing, SynthesisStage.Degrading => true
  | SynthesisStage.Degrading, SynthesisStage.Critical => true
  | SynthesisStage.Critical, SynthesisStage.None => true
  | _, _ => false

/-- An in-progress stage (`Initiating` .. `Critical`). -/
def SynthesisStage.inProgress : SynthesisStage → Bool
  | SynthesisStage.None => false
  | SynthesisStage.Complete => false
  | _ => true

/-- The full legal edge set of section 4.3: the claimed graph extended
with the forced-revert edges (any in-progress stage to `None`, via
`revertSynthesis`) and the cycle-reset edge `Complete → None` taken
inside `completeSynthesis`. -/
def legalEdge (a b : SynthesisStage) : Bool :=
  claimEdge a b || (a.inProgress && decide (b = SynthesisStage.None)) ||
    (decide (a = SynthesisStage.Complete) && decide (b = SynthesisStage.None))

/-- A rule with no requirements granting the venom-claws form. -/
def revRule : SynthesisPath := ⟨⟨0, 0, 0, []⟩, ⟨"venom-claws", [], 1, []⟩⟩

/-- A registry returning `revRule` for every key. -/
def revCtx : SynthCtx := ⟨fun _ _ _ => some revRule, [], 0, 0⟩

/-- A fresh synthesis state for the claws trait. -/
def revState0 : SynthesisState :=
  ⟨"claws", "claws", SynthesisStage.None, ⟨0, 1, 0⟩, none⟩

/-- C3 counterexample: the claim's edge set is violated by the engine
itself.  From a fresh state a successful `beginSynthesis` reaches
`Initiating`; the legal call `revertSynthesis` then takes the
transition `Initiating → None`, which is not an edge of the claimed
graph (`None` is reached only from `Critical` there). -/
theorem synthesis_stage_claim_counterexample :
    (synthStep revCtx revState0 (SynthCall.beginC "venom-claws"
      CatalystType.Environmental "swamp" 1)).2.1 = SynthOutcomeKind.success ∧
    (synthStep revCtx (synthStep revCtx revState0 (SynthCall.beginC
      "venom-claws" CatalystType.Environmental "swamp" 1)).1
      SynthCall.revertC).2.2 =
      [(SynthesisStage.Initiating, SynthesisStage.None)] ∧
    claimEdge SynthesisStage.Initiating SynthesisStage.None = false := by
  refine ⟨?_, ?_, rfl⟩
  · norm_num [synthStep, beginSynthesis, revCtx, revState0, revRule,
      SynthesisRequirement.evaluate]
  · norm_num [synthStep, beginSynthesis, revertSynthesis, revCtx, revState0,
      revRule, SynthesisRequirement.evaluate]

theorem beginSynthesis_edges (ctx : SynthCtx) (st : SynthesisState)
    (t : String) (c : CatalystType) (i : String) (q : ℚ) :
    ∀ e ∈ (beginSynthesis ctx st t c i q).2.2, legalEdge e.1 e.2 = true := by
  intro e he
  unfold beginSynthesis at he
  split at he
  · simp at he
  · split at he
    · simp at he
    · split at he
      · simp at he
        subst he
        rfl
      · simp at he

theorem beginSynthesis_unchanged (ctx : SynthCtx) (st : SynthesisState)
    (t : String) (c : CatalystType) (i : String) (q : ℚ) :
    (beginSynthesis ctx st t c i q).2.1 =
      SynthOutcomeKind.failure SynthesisFailureType.SystemicFailure →
    (beginSynthesis ctx st t c i q).1 = st := by
  unfold beginSynthesis
  split
  · intro _
    rfl
  · split
    · intro _
      rfl
    · split
      · intro h
        simp at h
      · intro _
        rfl

theorem progressSynthesis_edges (ctx : SynthCtx) (st : SynthesisState)
    (dt : ℚ) :
    ∀ e ∈ (progressSynthesis ctx st dt).2.2, legalEdge e.1 e.2 = true := by
  intro e he
  cases hs : st.currentStage
  case None => simp [progressSynthesis, hs] at he
  case Complete => simp [progressSynthesis, hs] at he
  case Critical =>
    simp [progressSynthesis, hs] at he
    subst he
    rfl
  case Degrading =>
    simp only [progressSynthesis, hs] at he
    split at he
    · simp at he
      subst he
      rfl
    · simp at he
  case Initiating =>
    simp only [progressSynthesis, hs] at he
    split at he
    · simp at he
      subst he
      rfl
    · simp at he
  case Forming =>
    simp only [progressSynthesis, hs] at he
    split at he
    · simp at he
      subst he
      rfl
    · split at he
      · simp at he
        subst he
        rfl
      · simp at he
  case Stabilizing =>
    simp only [progressSynthesis, hs] at he
    split at he
    · simp at he
      subst he
      rfl
    · simp at he

theorem progressSynthesis_unchanged (ctx : SynthCtx) (st : SynthesisState)
    (dt : ℚ) :
    (progressSynthesis ctx st dt).2.1 =
      SynthOutcomeKind.failure SynthesisFailureType.SystemicFailure →
    (progressSynthesis ctx st dt).1 = st := by
  cases hs : st.currentStage
  case None => intro _; simp [progressSynthesis, hs]
  case Complete => intro _; simp [progressSynthesis, hs]
  case Critical =>
    intro h
    simp [progressSynthesis, hs] at h
  case Degrading =>
    intro h
    simp only [progressSynthesis, hs] at h
    split at h <;> simp at h
  case Initiating =>
    intro h
    simp only [progressSynthesis, hs] at h
    split at h <;> simp at h
  case Forming =>
    intro h
    simp only [progressSynthesis, hs] at h
    split at h
    · simp at h
    · split at h <;> simp at h
  case Stabilizing =>
    intro h
    simp only [progressSynthesis, hs] at h
    split at h <;> simp at h

theorem completeSynthesis_edges (st : SynthesisState) :
    ∀ e ∈ (completeSynthesis st).2.2, legalEdge e.1 e.2 = true := by
  intro e he
  unfold completeSynthesis at he
  split at he
  · simp at he
  · split at he
    · simp at he
    · simp at he
      rcases he with he | he <;> subst he <;> rfl

theorem completeSynthesis_unchanged (st : SynthesisState) :
    (completeSynthesis st).2.1 =
      SynthOutcomeKind.failure SynthesisFailureType.SystemicFailure →
    (completeSynthesis st).1 = st := by
  unfold completeSynthesis
  split
  · intro _
    rfl
  · split
    · intro h
      simp at h
    · intro h
      simp at h

theorem revertSynthesis_edges (st : SynthesisState) :
    ∀ e ∈ (revertSynthesis st).2.2, legalEdge e.1 e.2 = true := by
  intro e he
  cases hs : st.currentStage <;> simp only [revertSynthesis, hs] at he <;>
    simp at he <;> subst he <;> rfl

theorem revertSynthesis_unchanged (st : SynthesisState) :
    (revertSynthesis st).2.1 =
      SynthOutcomeKind.failure SynthesisFailureType.SystemicFailure →
    (revertSynthesis st).1 = st := by
  intro h
  cases hs : st.currentStage <;> simp only [revertSynthesis, hs] at h ⊢ <;>
    first
    | rfl
    | simp at h

/-- C3 amended: for every engine call on every synthesis state, every
stage transition taken is an edge of the section-4.3 graph extended
with the forced-revert edges to `None` (any in-progress stage, via
`revertSynthesis`) and the `Complete → None` cycle reset taken inside
`completeSynthesis`; a `SystemicFailure` (attempted illegal
transition) leaves the whole state unchanged; and whenever the stage
is `Critical` the next `progressSynthesis` call moves the stage to
`None` and clears progress. -/
theorem synthesis_stage_legality (ctx : SynthCtx) (st : SynthesisState)
    (call : SynthCall) :
    (∀ e ∈ (synthStep ctx st call).2.2, legalEdge e.1 e.2 = true) ∧
    ((synthStep ctx st call).2.1 =
        SynthOutcomeKind.failure SynthesisFailureType.SystemicFailure →
      (synthStep ctx st call).1 = st) ∧
    (st.currentStage = SynthesisStage.Critical → ∀ dt,
      (synthStep ctx st (SynthCall.progressC dt)).1.currentStage =
        SynthesisStage.None ∧
      (synthStep ctx st (SynthCall.progressC dt)).1.progress = ⟨0, 1, 0⟩) := by
  refine ⟨?_, ?_, ?_⟩
  · cases call with
    | beginC t c i q =>
      exact beginSynthesis_edges ctx st t c i q
    | progressC dt =>
      exact progressSynthesis_edges ctx st dt
    | completeC =>
      exact completeSynthesis_edges st
    | revertC =>
      exact revertSynthesis_edges st
  · cases call with
    | beginC t c i q =>
      exact beginSynthesis_unchanged ctx st t c i q
    | progressC dt =>
      exact progressSynthesis_unchanged ctx st dt
    | completeC =>
      exact completeSynthesis_unchanged st
    | revertC =>
      exact revertSynthesis_unchanged st
  · intro hcrit dt
    constructor <;> simp [synthStep, progressSynthesis, hcrit]

/-- A synthesis state stuck at `Critical`. -/
def criticalState : SynthesisState :=
  ⟨"claws", "claws", SynthesisStage.Critical, ⟨0, 0, 0⟩, some revRule⟩

/-- Witness for C3 (amended) at concrete inputs: from `criticalState`
one progress tick resolves to `None` with cleared progress, and the
transition it takes is legal. -/
theorem synthesis_stage_legality_witness :
    (∀ e ∈ (synthStep revCtx criticalState (SynthCall.progressC 1)).2.2,
      legalEdge e.1 e.2 = true) ∧
    ((synthStep revCtx criticalState
        (SynthCall.progressC 1)).1.currentStage = SynthesisStage.None ∧
      (synthStep revCtx criticalState (SynthCall.progressC 1)).1.progress =
        ⟨0, 1, 0⟩) :=
  ⟨(synthesis_stage_legality revCtx criticalState (SynthCall.progressC 1)).1,
   (synthesis_stage_legality revCtx criticalState
      (SynthCall.progressC 1)).2.2 rfl 1⟩

/-! ## Claim C9 — beginSynthesis requirement gating -/

/-- C9: `beginSynthesis` gating.  From stage `None`, the call succeeds
exactly when a rule is registered for (currentForm, catalystType,
targetForm) and its requirement evaluates to true, where the
evaluation is precisely the boolean AND of `intensity ≥
minimumIntensity`, `stability ≥ minimumStability`, `level ≥
requiredSynthesisLevel` and the presence of every required trait; on
any failure it returns a typed failure kind and the whole state
(stage `None`, progress) is unchanged. -/
theorem beginSynthesis_gating (ctx : SynthCtx) (st : SynthesisState)
    (target : String) (ctype : CatalystType) (cid : String) (intensity : ℚ)
    (hstage : st.currentStage = SynthesisStage.None) :
    ((beginSynthesis ctx st target ctype cid intensity).2.1 =
        SynthOutcomeKind.success ↔
      ∃ path, ctx.rules st.currentForm ctype target = some path ∧
        path.requirements.evaluate intensity st.progress.stabilityFactor
          ctx.synthesisLevel ctx.availableTraits = true) ∧
    (∀ (req : SynthesisRequirement) (i s : ℚ) (l : ℤ) (avail : List String),
      req.evaluate i s l avail = true ↔
        (req.minimumIntensity ≤ i ∧ req.minimumStability ≤ s ∧
         req.requiredSynthesisLevel ≤ l ∧
         ∀ t ∈ req.requiredTraits, t ∈ avail)) ∧
    ((beginSynthesis ctx st target ctype cid intensity).2.1 ≠
        SynthOutcomeKind.success →
      (beginSynthesis ctx st target ctype cid intensity).1 = st ∧
      ∃ k, (beginSynthesis ctx st target ctype cid intensity).2.1 =
        SynthOutcomeKind.failure k) := by
  refine ⟨?_, ?_, ?_⟩
  · cases hr : ctx.rules st.currentForm ctype target with
    | none => simp [beginSynthesis, hstage, hr]
    | some path =>
      by_cases heval : path.requirements.evaluate intensity
          st.progress.stabilityFactor ctx.synthesisLevel
          ctx.availableTraits = true
      · simp only [beginSynthesis, hstage, ne_eq, not_true_eq_false,
          if_false, hr, heval, if_true]
        constructor
        · intro _
          exact ⟨path, rfl, heval⟩
        · intro _
          trivial
      · simp only [beginSynthesis, hstage, ne_eq, not_true_eq_false,
          if_false, hr, heval, if_false]
        constructor
        · intro h
          simp at h
        · rintro ⟨path2, hp2, he2⟩
          rw [Option.some.injEq] at hp2
          subst hp2
          exact absurd he2 heval
  · intro req i s l avail
    unfold SynthesisRequirement.evaluate
    simp only [Bool.and_eq_true, decide_eq_true_eq, List.all_eq_true,
      and_assoc]
    constructor
    · rintro ⟨h1, h2, h3, h4⟩
      exact ⟨h1, h2, h3, fun t ht => by simpa using h4 t ht⟩
    · rintro ⟨h1, h2, h3, h4⟩
      exact ⟨h1, h2, h3, fun t ht => by simpa using h4 t ht⟩
  · intro hns
    cases hr : ctx.rules st.currentForm ctype target with
    | none =>
      refine ⟨?_, SynthesisFailureType.Incompatible, ?_⟩ <;>
        simp [beginSynthesis, hstage, hr]
    | some path =>
      by_cases heval : path.requirements.evaluate intensity
          st.progress.stabilityFactor ctx.synthesisLevel
          ctx.availableTraits = true
      · exfalso
        apply hns
        simp [beginSynthesis, hstage, hr, heval]
      · refine ⟨?_, SynthesisFailureType.Requirements, ?_⟩ <;>
          simp [beginSynthesis, hstage, hr, heval]

/-- The specification's claws rule: claws + Environmental catalyst →
venom-claws, requiring intensity at least `0.5`. -/
def clawRule : SynthesisPath := ⟨⟨1/2, 0, 0, []⟩, ⟨"venom-claws", [], 1, []⟩⟩

/-- A registry holding exactly the claws → venom-claws path. -/
def clawCtx : SynthCtx :=
  ⟨fun src c tgt => if src = "claws" ∧ c = CatalystType.Environmental ∧
      tgt = "venom-claws" then some clawRule else none, [], 0, 0⟩

/-- A fresh synthesis state for the claws trait. -/
def clawState : SynthesisState :=
  ⟨"claws", "claws", SynthesisStage.None, ⟨0, 1, 0⟩, none⟩

/-- Witness for C9: the specification's own scenario —
`beginSynthesis("venom-claws", Environmental, "swamp", 0.9)` against a
rule requiring intensity `0.5` succeeds, while the same call with
intensity `0.3` fails with a typed failure and leaves the state (and
its `None` stage) unchanged. -/
theorem beginSynthesis_gating_witness :
    (beginSynthesis clawCtx clawState "venom-claws"
        CatalystType.Environmental "swamp" (9/10)).2.1 =
      SynthOutcomeKind.success ∧
    (beginSynthesis clawCtx clawState "venom-claws"
        CatalystType.Environmental "swamp" (3/10)).1 = clawState ∧
    (∃ k, (beginSynthesis clawCtx clawState "venom-claws"
        CatalystType.Environmental "swamp" (3/10)).2.1 =
      SynthOutcomeKind.failure k) := by
  have hg9 := beginSynthesis_gating clawCtx clawState "venom-claws"
    CatalystType.Environmental "swamp" (9/10) rfl
  have hg3 := beginSynthesis_gating clawCtx clawState "venom-claws"
    CatalystType.Environmental "swamp" (3/10) rfl
  have hcomp : (beginSynthesis clawCtx clawState "venom-claws"
      CatalystType.Environmental "swamp" (3/10)).2.1 =
      SynthOutcomeKind.failure SynthesisFailureType.Requirements := by
    norm_num [beginSynthesis, clawCtx, clawState, clawRule,
      SynthesisRequirement.evaluate]
  have hns : (beginSynthesis clawCtx clawState "venom-claws"
      CatalystType.Environmental "swamp" (3/10)).2.1 ≠
      SynthOutcomeKind.success := by
    rw [hcomp]
    simp
  refine ⟨?_, (hg3.2.2 hns).1, (hg3.2.2 hns).2⟩
  exact hg9.1.mpr ⟨clawRule, by simp [clawCtx, clawState],
    by norm_num [SynthesisRequirement.evaluate, clawRule, clawState, clawCtx]⟩
